import Mathlib

/-!
Verification development for the llm-pipeline crate.

Rust strings are modelled as `List Char`; byte indices of the original code
become character indices (all delimiter literals involved are ASCII, so
occurrence and splicing positions coincide with the byte-level behaviour).
`while` loops with index jumps are modelled by fuel-based recursion, with the
fuel set to the input length plus one, which the termination lemmas below show
is always sufficient.  `serde_json::from_str::<Value>` (an external dependency
of the crate) is modelled by the executable JSON parser `jsonParse`;
JSON numbers (`f64` in the source) are modelled by `Rat`.
-/

set_option maxRecDepth 16384

namespace LlmPipeline

/-- Characters that Rust `char::is_whitespace` recognises (ASCII fragment). -/
def isWs (c : Char) : Bool := c = ' ' || c = '\t' || c = '\n' || c = '\r'

/-- Model of Rust `str::trim_start`. -/
def trimLeft (s : List Char) : List Char := s.dropWhile isWs

/-- Model of Rust `str::trim_end`. -/
def trimRight (s : List Char) : List Char := (s.reverse.dropWhile isWs).reverse

/-- Model of Rust `str::trim`. -/
def trim (s : List Char) : List Char := trimRight (trimLeft s)

/-- Index of the first occurrence of `pat` in `s` (Rust `str::find`). -/
def findSub : List Char → List Char → Option Nat
  | s, pat =>
    if pat.isPrefixOf s then some 0
    else
      match s with
      | [] => none
      | _ :: tl => (findSub tl pat).map (· + 1)

/-- Whether `pat` occurs in `s` (Rust `str::contains`). -/
def containsSub (s pat : List Char) : Bool := (findSub s pat).isSome

/-- `s` has an occurrence of `pat` at position `j`. -/
def OccursAt (s pat : List Char) (j : Nat) : Prop := pat.isPrefixOf (s.drop j)

theorem findSub_nil (pat : List Char) :
    findSub [] pat = if pat.isPrefixOf [] then some 0 else none := rfl

theorem findSub_cons (c : Char) (tl pat : List Char) :
    findSub (c :: tl) pat =
      if pat.isPrefixOf (c :: tl) then some 0 else (findSub tl pat).map (· + 1) := rfl

theorem findSub_some_occurs {s pat : List Char} {i : Nat}
    (h : findSub s pat = some i) : OccursAt s pat i := by
  induction s generalizing i with
  | nil =>
    rw [findSub_nil] at h
    split at h
    · cases h; assumption
    · cases h
  | cons c tl ih =>
    rw [findSub_cons] at h
    split at h
    · cases h; assumption
    · simp only [Option.map_eq_some'] at h
      obtain ⟨j, hj, rfl⟩ := h
      exact ih hj

theorem findSub_some_min {s pat : List Char} {i : Nat}
    (h : findSub s pat = some i) : ∀ j, j < i → ¬ OccursAt s pat j := by
  induction s generalizing i with
  | nil =>
    rw [findSub_nil] at h
    split at h
    · cases h; omega
    · cases h
  | cons c tl ih =>
    rw [findSub_cons] at h
    split at h
    · cases h; omega
    · simp only [Option.map_eq_some'] at h
      obtain ⟨k, hk, rfl⟩ := h
      intro j hj
      cases j with
      | zero => simpa [OccursAt] using (by assumption : ¬ pat.isPrefixOf (c :: tl))
      | succ j =>
        have := ih hk j (by omega)
        simpa [OccursAt] using this

theorem findSub_none {s pat : List Char}
    (h : findSub s pat = none) : ∀ j, ¬ OccursAt s pat j := by
  induction s with
  | nil =>
    rw [findSub_nil] at h
    split at h
    · cases h
    · intro j
      simp only [OccursAt, List.drop_nil]
      assumption
  | cons c tl ih =>
    rw [findSub_cons] at h
    split at h
    · cases h
    · simp only [Option.map_eq_none'] at h
      intro j
      cases j with
      | zero => simpa [OccursAt] using (by assumption : ¬ pat.isPrefixOf (c :: tl))
      | succ j => simpa [OccursAt] using ih h j

theorem occurs_findSub_isSome {s pat : List Char} {j : Nat}
    (h : OccursAt s pat j) : (findSub s pat).isSome := by
  cases hf : findSub s pat with
  | none => exact absurd h (findSub_none hf j)
  | some i => rfl

theorem occursAt_length {s pat : List Char} {j : Nat}
    (h : OccursAt s pat j) (hp : pat ≠ []) : j + pat.length ≤ s.length := by
  have hpre : pat <+: s.drop j := List.isPrefixOf_iff_prefix.mp h
  have hlen : pat.length ≤ (s.drop j).length := hpre.length_le
  have hj : j ≤ s.length := by
    by_contra hcon
    push_neg at hcon
    have : s.drop j = [] := List.drop_eq_nil_of_le (by omega)
    rw [this] at hpre
    exact hp (List.prefix_nil.mp hpre)
  simp only [List.length_drop] at hlen
  omega

theorem occursAt_of_take {s pat : List Char} {j k : Nat}
    (h : OccursAt (s.take k) pat j) : OccursAt s pat j := by
  have hpre : pat <+: (s.take k).drop j := List.isPrefixOf_iff_prefix.mp h
  rw [List.drop_take] at hpre
  exact List.isPrefixOf_iff_prefix.mpr (hpre.trans (List.take_prefix _ _))

/-! ## `output_parser/extract.rs` -/

/-- Loop body of `strip_tag_variant` (the `while let Some(start)` loop),
    fuel-indexed; fuel `s.length + 1` always suffices. -/
def stripTagGo (op cl : List Char) : Nat → List Char → List Char
  | 0, s => s
  | fuel + 1, s =>
    (findSub s op).elim s (fun start =>
      (findSub (s.drop start) cl).elim (s.take start) (fun off =>
        stripTagGo op cl fuel (s.take start ++ s.drop (start + off + cl.length))))

/-- Strip a specific open/close tag pair from text (`strip_tag_variant`). -/
def strip_tag_variant (s op cl : List Char) : List Char :=
  stripTagGo op cl (s.length + 1) s

/-- Strip all think/thinking blocks (`strip_think_tags`). -/
def strip_think_tags (s : List Char) : List Char :=
  strip_tag_variant (strip_tag_variant s "<think>".data "</think>".data)
    "<thinking>".data "</thinking>".data

/-- Full preprocessing pipeline (`preprocess`). -/
def preprocess (s : List Char) : List Char := trim (strip_think_tags s)

theorem stripTagGo_none {op cl s : List Char} {fuel : Nat}
    (h : findSub s op = none) : stripTagGo op cl (fuel + 1) s = s := by
  unfold stripTagGo
  rw [h]
  rfl

theorem stripTagGo_break {op cl s : List Char} {fuel start : Nat}
    (h : findSub s op = some start) (h' : findSub (s.drop start) cl = none) :
    stripTagGo op cl (fuel + 1) s = s.take start := by
  unfold stripTagGo
  rw [h]
  simp only [Option.elim_some]
  rw [h']
  rfl

theorem stripTagGo_step {op cl s : List Char} {fuel start off : Nat}
    (h : findSub s op = some start) (h' : findSub (s.drop start) cl = some off) :
    stripTagGo op cl (fuel + 1) s
      = stripTagGo op cl fuel (s.take start ++ s.drop (start + off + cl.length)) := by
  conv_lhs => unfold stripTagGo
  rw [h]
  simp only [Option.elim_some]
  rw [h']
  simp only [Option.elim_some]

theorem stripTagGo_no_occur (op cl : List Char) (hop : op ≠ []) (hcl : cl ≠ []) :
    ∀ fuel s, s.length < fuel → ∀ j, ¬ OccursAt (stripTagGo op cl fuel s) op j := by
  intro fuel
  induction fuel with
  | zero => intro s hs; omega
  | succ fuel ih =>
    intro s hs j
    cases hf : findSub s op with
    | none =>
      rw [stripTagGo_none hf]
      exact findSub_none hf j
    | some start =>
      cases hc : findSub (s.drop start) cl with
      | none =>
        rw [stripTagGo_break hf hc]
        intro hocc
        have hocc' : OccursAt s op j := occursAt_of_take hocc
        have hlen : j + op.length ≤ (s.take start).length :=
          occursAt_length hocc hop
        have hoplen : 0 < op.length := List.length_pos.mpr hop
        have hjlt : j < start := by
          have : (s.take start).length ≤ start := by
            simp [List.length_take]
          omega
        exact findSub_some_min hf j hjlt hocc'
      | some off =>
        rw [stripTagGo_step hf hc]
        apply ih
        have hclocc : OccursAt (s.drop start) cl off := findSub_some_occurs hc
        have hstart : OccursAt s op start := findSub_some_occurs hf
        have hstartlen : start + op.length ≤ s.length := occursAt_length hstart hop
        have hcllen : 0 < cl.length := List.length_pos.mpr hcl
        have hofflen : off + cl.length ≤ s.length - start :=
          (by simpa using occursAt_length hclocc hcl)
        have hlen : (s.take start ++ s.drop (start + off + cl.length)).length
            = (s.take start).length + (s.drop (start + off + cl.length)).length := by
          simp
        have htk : (s.take start).length = min start s.length := by
          simp [List.length_take]
        have hdp : (s.drop (start + off + cl.length)).length
            = s.length - (start + off + cl.length) := by simp
        have hoplen : 0 < op.length := List.length_pos.mpr hop
        omega

theorem noOccur_findSub_none {s pat : List Char}
    (h : ∀ j, ¬ OccursAt s pat j) : findSub s pat = none := by
  cases hf : findSub s pat with
  | none => rfl
  | some i => exact absurd (findSub_some_occurs hf) (h i)

theorem occursAt_mono {s p1 p2 : List Char} {j : Nat}
    (hp : p1 <+: p2) (h : OccursAt s p2 j) : OccursAt s p1 j :=
  List.isPrefixOf_iff_prefix.mpr (hp.trans (List.isPrefixOf_iff_prefix.mp h))

theorem strip_tag_variant_no_occur {op cl : List Char} (hop : op ≠ []) (hcl : cl ≠ [])
    (s : List Char) : ∀ j, ¬ OccursAt (strip_tag_variant s op cl) op j :=
  stripTagGo_no_occur op cl hop hcl (s.length + 1) s (Nat.lt_succ_self _)

theorem strip_tag_variant_id {op cl s : List Char}
    (h : findSub s op = none) : strip_tag_variant s op cl = s :=
  stripTagGo_none h

/-! ## JSON model (serde_json `Value` and `from_str`)

`serde_json` is an external dependency of the crate; it is modelled here by
an executable JSON parser.  Numbers (`u64`/`i64`/`f64` in `serde_json`) are
modelled by `Rat`; object entries are kept in parse order (no claim below
depends on key ordering or duplicate-key resolution). -/

/-- The opening brace character (ASCII 123). -/
def lbrace : Char := Char.ofNat 123

/-- The closing brace character (ASCII 125). -/
def rbrace : Char := Char.ofNat 125

/-- The single-quote character (ASCII 39). -/
def squote : Char := Char.ofNat 39

inductive Json where
  | null : Json
  | bool : Bool → Json
  | num : Rat → Json
  | str : List Char → Json
  | arr : List Json → Json
  | obj : List (List Char × Json) → Json

/-- Skip JSON whitespace (space, tab, newline, carriage return). -/
def jsonSkipWs (s : List Char) : List Char := s.dropWhile isWs

/-- Value of a hex digit. -/
def hexVal (c : Char) : Option Nat :=
  if '0' ≤ c ∧ c ≤ '9' then some (c.toNat - 48)
  else if 'a' ≤ c ∧ c ≤ 'f' then some (c.toNat - 87)
  else if 'A' ≤ c ∧ c ≤ 'F' then some (c.toNat - 70)
  else none

/-- Parse the body of a JSON string literal (after the opening quote).
    Returns `(content, rest-after-closing-quote)`.  `\u` escapes are mapped
    through `Char.ofNat` (surrogate pairs are not recombined; no input in
    this development uses them). -/
def jsonStrGo : List Char → Option (List Char × List Char)
  | [] => none
  | '"' :: tl => some ([], tl)
  | '\\' :: 'u' :: h1 :: h2 :: h3 :: h4 :: tl =>
    match hexVal h1, hexVal h2, hexVal h3, hexVal h4 with
    | some a, some b, some c, some d =>
      (jsonStrGo tl).map (fun p =>
        (Char.ofNat (((a * 16 + b) * 16 + c) * 16 + d) :: p.1, p.2))
    | _, _, _, _ => none
  | '\\' :: e :: tl =>
    let dec : Option Char :=
      if e = '"' then some '"'
      else if e = '\\' then some '\\'
      else if e = '/' then some '/'
      else if e = 'b' then some (Char.ofNat 8)
      else if e = 'f' then some (Char.ofNat 12)
      else if e = 'n' then some '\n'
      else if e = 'r' then some '\r'
      else if e = 't' then some '\t'
      else none
    match dec with
    | some c => (jsonStrGo tl).map (fun p => (c :: p.1, p.2))
    | none => none
  | c :: tl =>
    if c.toNat < 32 then none
    else (jsonStrGo tl).map (fun p => (c :: p.1, p.2))

def isDigit (c : Char) : Bool := '0' ≤ c && c ≤ '9'

def digitsToNat (ds : List Char) : Nat :=
  ds.foldl (fun acc c => acc * 10 + (c.toNat - 48)) 0

/-- Parse a JSON number literal.  Returns `(value, rest)`. -/
def jsonNumGo (s : List Char) : Option (Rat × List Char) :=
  let (neg, s1) := match s with
    | '-' :: tl => (true, tl)
    | _ => (false, s)
  let intRes : Option (List Char × List Char) := match s1 with
    | '0' :: tl => some (['0'], tl)
    | c :: tl =>
      if isDigit c then some (c :: tl.takeWhile isDigit, tl.dropWhile isDigit)
      else none
    | [] => none
  match intRes with
  | none => none
  | some (ip, s2) =>
    -- fraction part: a '.' must be followed by at least one digit
    let fracRes : Option (List Char × List Char) := match s2 with
      | '.' :: c :: tl =>
        if isDigit c then some (c :: tl.takeWhile isDigit, tl.dropWhile isDigit)
        else none
      | '.' :: [] => none
      | _ => some ([], s2)
    match fracRes with
    | none => none
    | some (fp, s3) =>
      let expRes : Option (Int × List Char) := match s3 with
        | 'e' :: tl => jsonExpGo tl
        | 'E' :: tl => jsonExpGo tl
        | _ => some (0, s3)
      match expRes with
      | none => none
      | some (e, s4) =>
        let mantissa : Nat := digitsToNat (ip ++ fp)
        -- the guards only skip a division by 10^0 and a multiplication by
        -- 10^0; they keep integer literals reducible by `rfl`
        let base : Rat :=
          if fp.isEmpty then (mantissa : Rat)
          else (mantissa : Rat) / ((10 : Rat) ^ fp.length)
        let scaled : Rat := if e = 0 then base else base * (10 : Rat) ^ e
        some ((if neg then -scaled else scaled), s4)
where
  /-- Parse an exponent: optional sign then one or more digits. -/
  jsonExpGo (t : List Char) : Option (Int × List Char) :=
    let (eneg, t1) := match t with
      | '-' :: tl => (true, tl)
      | '+' :: tl => (false, tl)
      | _ => (false, t)
    match t1 with
    | c :: tl =>
      if isDigit c then
        let ds := c :: tl.takeWhile isDigit
        let n : Int := (digitsToNat ds : Int)
        some ((if eneg then -n else n), tl.dropWhile isDigit)
      else none
    | [] => none

mutual

/-- Parse a JSON value (fuel-indexed recursive descent). -/
def jpVal : Nat → List Char → Option (Json × List Char)
  | 0, _ => none
  | _ + 1, 'n' :: 'u' :: 'l' :: 'l' :: tl => some (.null, tl)
  | _ + 1, 't' :: 'r' :: 'u' :: 'e' :: tl => some (.bool true, tl)
  | _ + 1, 'f' :: 'a' :: 'l' :: 's' :: 'e' :: tl => some (.bool false, tl)
  | _ + 1, '"' :: tl => (jsonStrGo tl).map (fun p => (.str p.1, p.2))
  | fuel + 1, c :: tl =>
    if c = '[' then jpArrFirst fuel (jsonSkipWs tl)
    else if c = lbrace then jpObjFirst fuel (jsonSkipWs tl)
    else if c = '-' || isDigit c then
      (jsonNumGo (c :: tl)).map (fun p => (.num p.1, p.2))
    else none
  | _ + 1, [] => none

/-- After `[` and whitespace: empty array or first element. -/
def jpArrFirst : Nat → List Char → Option (Json × List Char)
  | 0, _ => none
  | _ + 1, ']' :: tl => some (.arr [], tl)
  | fuel + 1, s =>
    match jpVal fuel s with
    | none => none
    | some (v, rest) => jpArrRest fuel [v] (jsonSkipWs rest)

/-- After an element and whitespace: `,` and the next element, or `]`. -/
def jpArrRest : Nat → List Json → List Char → Option (Json × List Char)
  | 0, _, _ => none
  | _ + 1, acc, ']' :: tl => some (.arr acc.reverse, tl)
  | fuel + 1, acc, ',' :: tl =>
    match jpVal fuel (jsonSkipWs tl) with
    | none => none
    | some (v, rest) => jpArrRest fuel (v :: acc) (jsonSkipWs rest)
  | _ + 1, _, _ => none

/-- After `{` and whitespace: empty object or first member. -/
def jpObjFirst : Nat → List Char → Option (Json × List Char)
  | 0, _ => none
  | fuel + 1, s =>
    match s with
    | c :: tl =>
      if c = rbrace then some (.obj [], tl)
      else if c = '"' then
        match jsonStrGo tl with
        | none => none
        | some (key, rest) =>
          match jsonSkipWs rest with
          | ':' :: rest2 =>
            match jpVal fuel (jsonSkipWs rest2) with
            | none => none
            | some (v, rest3) => jpObjRest fuel [(key, v)] (jsonSkipWs rest3)
          | _ => none
      else none
    | [] => none

/-- After a member and whitespace: `,` and the next member, or `}`. -/
def jpObjRest : Nat → List (List Char × Json) → List Char → Option (Json × List Char)
  | 0, _, _ => none
  | fuel + 1, acc, c :: tl =>
    if c = rbrace then some (.obj acc.reverse, tl)
    else if c = ',' then
      match jsonSkipWs tl with
      | '"' :: rest =>
        match jsonStrGo rest with
        | none => none
        | some (key, rest1) =>
          match jsonSkipWs rest1 with
          | ':' :: rest2 =>
            match jpVal fuel (jsonSkipWs rest2) with
            | none => none
            | some (v, rest3) => jpObjRest fuel ((key, v) :: acc) (jsonSkipWs rest3)
          | _ => none
      | _ => none
    else none
  | _ + 1, _, [] => none

end

/-- Model of `serde_json::from_str::<Value>`: parse a complete JSON document
    with no trailing garbage. -/
def jsonParse (s : List Char) : Option Json :=
  match jpVal (s.length + 1) (jsonSkipWs s) with
  | none => none
  | some (v, rest) => if jsonSkipWs rest = [] then some v else none

/-! ## `parsing.rs` -/

/-- Extract the first think block (`extract_thinking` in `parsing.rs`).
    Returns `some (thinking_content, cleaned_text)`.  Note: unlike
    `strip_think_tags`, this looks only for the literal tags `<think>` and
    `</think>` and handles at most one region.  The source slices
    `text[start_idx + 7 .. end_idx]` with both indices found from the start
    of the text, so when the first `</think>` precedes the first `<think>`
    the slice has `start > end` and the Rust code panics; that panic is
    modelled as `none`. -/
def extract_thinking (text : List Char) :
    Option (Option (List Char) × List Char) :=
  let ts := "<think>".data
  let te := "</think>".data
  match findSub text ts with
  | none => some (none, text)
  | some start_idx =>
    match findSub text te with
    | none => some (none, text)
    | some end_idx =>
      if end_idx < start_idx + ts.length then none
      else
        let thinking := trim ((text.drop (start_idx + ts.length)).take
          (end_idx - (start_idx + ts.length)))
        let cleaned := trim (text.take start_idx ++ text.drop (end_idx + te.length))
        some ((if thinking = [] then none else some thinking), cleaned)

/-- C4 counterexample: the claim "for every text T, strip_reasoning(T)
    contains no `<think>` or `<thinking>` opening tag" fails: removing the
    `<thinking>…</thinking>` block of this input splices the surrounding
    characters into a fresh `<think>` tag
    (`strip_think_tags "<thi<thinking>x</thinking>nk>done" = "<think>done"`). -/
theorem strip_think_tags_can_leave_open_tag :
    strip_think_tags "<thi<thinking>x</thinking>nk>done".data = "<think>done".data ∧
    containsSub (strip_think_tags "<thi<thinking>x</thinking>nk>done".data)
      "<think>".data = true := by
  constructor <;> decide

/-- C4 (amended): for every text `T`, `strip_reasoning(T)`
    (`strip_think_tags`) contains no `<thinking>` opening tag, and the
    first pass alone (removal of `<think>…</think>` regions,
    `strip_tag_variant`) always yields a text with no `<think>` opening tag;
    the final result can still contain `<think>` because the second pass can
    splice one together out of the characters around a removed
    `<thinking>` block. -/
theorem strip_think_tags_no_thinking_tag (t : List Char) :
    containsSub (strip_think_tags t) "<thinking>".data = false ∧
    containsSub (strip_tag_variant t "<think>".data "</think>".data)
      "<think>".data = false := by
  constructor
  · have h2 : ∀ j, ¬ OccursAt (strip_think_tags t) "<thinking>".data j := by
      unfold strip_think_tags
      exact strip_tag_variant_no_occur (by decide) (by decide) _
    simp [containsSub, noOccur_findSub_none h2]
  · have h1 : ∀ j, ¬ OccursAt (strip_tag_variant t "<think>".data "</think>".data)
        "<think>".data j :=
      strip_tag_variant_no_occur (by decide) (by decide) t
    simp [containsSub, noOccur_findSub_none h1]

/-- C10: `extract_thinking` (which populates the payload output's reasoning
    field) extracts only the first `<think>…</think>` region; an opening
    `<think>` with no closing `</think>` anywhere leaves the text unchanged
    with no reasoning (no discard to end of text), a text with no `<think>`
    at all is likewise unchanged, and `<thinking>…</thinking>` regions are
    not extracted (shown for any text without a literal `</think>`, and at a
    concrete `<thinking>` input). -/
theorem extract_thinking_first_region_only :
    (∀ t : List Char, containsSub t "</think>".data = false →
      extract_thinking t = some (none, t)) ∧
    (∀ t : List Char, containsSub t "<think>".data = false →
      extract_thinking t = some (none, t)) ∧
    extract_thinking "a<think>r1</think>b<think>r2</think>c".data
      = some (some "r1".data, "ab<think>r2</think>c".data) ∧
    extract_thinking "<thinking>abc</thinking>done".data
      = some (none, "<thinking>abc</thinking>done".data) := by
  refine ⟨?_, ?_, by decide, by decide⟩
  · intro t h
    have hn : findSub t "</think>".data = none := by
      cases hf : findSub t "</think>".data with
      | none => rfl
      | some i => rw [containsSub, hf] at h; cases h
    cases hf : findSub t "<think>".data with
    | none => simp [extract_thinking, hf]
    | some i => simp [extract_thinking, hf, hn]
  · intro t h
    have hn : findSub t "<think>".data = none := by
      cases hf : findSub t "<think>".data with
      | none => rfl
      | some i => rw [containsSub, hf] at h; cases h
    simp [extract_thinking, hn]

/-- Witness for the hypotheses of `extract_thinking_first_region_only`:
    a concrete unterminated `<think>` is returned unchanged. -/
theorem extract_thinking_first_region_only_witness :
    extract_thinking "<think>still thinking".data
      = some (none, "<think>still thinking".data) :=
  extract_thinking_first_region_only.1 "<think>still thinking".data (by decide)

/-- First index of character `c` (Rust `str::find(char)`). -/
def findChar (s : List Char) (c : Char) : Option Nat := findSub s [c]

/-- Last index of character `c` (Rust `str::rfind(char)`). -/
def rfindChar (s : List Char) (c : Char) : Option Nat :=
  (findSub s.reverse [c]).map (fun i => s.length - 1 - i)

/-- `extract_json_block` in `parsing.rs`: first fenced block among the
    markers, content up to the next fence, trimmed. -/
def extract_json_block (text : List Char) : Option (List Char) :=
  goMarkers ["```json".data, "```JSON".data, "```".data]
where
  goMarkers : List (List Char) → Option (List Char)
    | [] => none
    | m :: rest =>
      match findSub text m with
      | some start =>
        let afterM := text.drop (start + m.length)
        match findSub afterM "```".data with
        | some e => some (trim (afterM.take e))
        | none => goMarkers rest
      | none => goMarkers rest

/-- `extract_json_candidate` in `parsing.rs`: markdown block first, then the
    remainder from the first brace/bracket, then up to the last closer. -/
def extract_json_candidate (text : List Char) : Option (List Char) :=
  let trimmed := trim text
  match extract_json_block trimmed with
  | some block => some block
  | none =>
    match (findChar trimmed lbrace).elim (findChar trimmed '[') some with
    | none => none
    | some idx =>
      let candidate := trimmed.drop idx
      if (jsonParse candidate).isSome then some candidate
      else
        let cl := if candidate.headD ' ' = lbrace then rbrace else ']'
        match rfindChar candidate cl with
        | some e =>
          let substr := candidate.take (e + 1)
          if (jsonParse substr).isSome then some substr else none
        | none => none

/-- `parse_value_lossy` in `parsing.rs`: direct parse, then candidate
    extraction, then wrap the trimmed text as a string.  Never fails. -/
def parse_value_lossy (text : List Char) : Json :=
  let trimmed := trim text
  match jsonParse trimmed with
  | some v => v
  | none =>
    match extract_json_candidate trimmed with
    | some candidate =>
      match jsonParse candidate with
      | some v => v
      | none => .str trimmed
    | none => .str trimmed

/-! ## `output_parser/repair.rs` -/

def isAlnum (c : Char) : Bool :=
  ('a' ≤ c && c ≤ 'z') || ('A' ≤ c && c ≤ 'Z') || isDigit c

def isAlpha (c : Char) : Bool := ('a' ≤ c && c ≤ 'z') || ('A' ≤ c && c ≤ 'Z')

/-- Scanner states of `strip_comments`. -/
inductive CommentState where
  | normal (inString escNext : Bool)
  | lineComment
  | blockComment

/-- `strip_comments`: remove `//` and `/* */` comments outside strings.
    The index-jump loop of the source is recast as a state machine; the
    source quirk that an unterminated block comment still emits the final
    character (its scan stops at `i + 1 == len`) is preserved. -/
def stripCommentsGo : CommentState → List Char → List Char
  | _, [] => []
  | .lineComment, c :: tl =>
    if c = '\n' then c :: stripCommentsGo (.normal false false) tl
    else stripCommentsGo .lineComment tl
  | .blockComment, '*' :: '/' :: tl => stripCommentsGo (.normal false false) tl
  | .blockComment, [c] => [c]
  | .blockComment, _ :: c2 :: tl => stripCommentsGo .blockComment (c2 :: tl)
  | .normal inS true, c :: tl => c :: stripCommentsGo (.normal inS false) tl
  | .normal true false, c :: tl =>
    if c = '\\' then c :: stripCommentsGo (.normal true true) tl
    else if c = '"' then c :: stripCommentsGo (.normal false false) tl
    else c :: stripCommentsGo (.normal true false) tl
  | .normal false false, '/' :: '/' :: tl => stripCommentsGo .lineComment tl
  | .normal false false, '/' :: '*' :: tl => stripCommentsGo .blockComment tl
  | .normal false false, c :: tl =>
    if c = '"' then c :: stripCommentsGo (.normal true false) tl
    else c :: stripCommentsGo (.normal false false) tl

def strip_comments (s : List Char) : List Char :=
  stripCommentsGo (.normal false false) s

/-- Word-boundary match of `fromW` at the head of `s` (`try_replace_word`):
    the previous original character and the character after the word must
    not be alphanumeric. -/
def wordAt (prev : Option Char) (s fromW : List Char) : Bool :=
  fromW.isPrefixOf s
    && (match prev with | none => true | some p => !isAlnum p)
    && (match s.drop fromW.length with | [] => true | c :: _ => !isAlnum c)

/-- `replace_python_literals`: `True`/`False`/`None` → `true`/`false`/`null`
    outside strings, with word boundaries.  `prev` tracks the previous
    character of the original text. -/
def replacePyGo : Nat → Bool → Bool → Option Char → List Char → List Char
  | 0, _, _, _, s => s
  | _ + 1, _, _, _, [] => []
  | fuel + 1, inS, true, _, c :: tl => c :: replacePyGo fuel inS false (some c) tl
  | fuel + 1, true, false, _, c :: tl =>
    if c = '\\' then c :: replacePyGo fuel true true (some c) tl
    else if c = '"' then c :: replacePyGo fuel false false (some c) tl
    else c :: replacePyGo fuel true false (some c) tl
  | fuel + 1, false, false, prev, c :: tl =>
    if c = '"' then c :: replacePyGo fuel true false (some c) tl
    else if wordAt prev (c :: tl) "True".data then
      "true".data ++ replacePyGo fuel false false (some 'e') ((c :: tl).drop 4)
    else if wordAt prev (c :: tl) "False".data then
      "false".data ++ replacePyGo fuel false false (some 'e') ((c :: tl).drop 5)
    else if wordAt prev (c :: tl) "None".data then
      "null".data ++ replacePyGo fuel false false (some 'e') ((c :: tl).drop 4)
    else c :: replacePyGo fuel false false (some c) tl

def replace_python_literals (s : List Char) : List Char :=
  replacePyGo (s.length + 1) false false none s

/-- `remove_trailing_commas`: drop a comma whose next non-whitespace
    character is `}` or `]`, outside strings. -/
def removeCommasGo : Bool → Bool → List Char → List Char
  | _, _, [] => []
  | inS, true, c :: tl => c :: removeCommasGo inS false tl
  | true, false, c :: tl =>
    if c = '\\' then c :: removeCommasGo true true tl
    else if c = '"' then c :: removeCommasGo false false tl
    else c :: removeCommasGo true false tl
  | false, false, c :: tl =>
    if c = '"' then c :: removeCommasGo true false tl
    else if c = ',' then
      match tl.dropWhile isWs with
      | d :: _ =>
        if d = rbrace || d = ']' then removeCommasGo false false tl
        else c :: removeCommasGo false false tl
      | [] => c :: removeCommasGo false false tl
    else c :: removeCommasGo false false tl

def remove_trailing_commas (s : List Char) : List Char :=
  removeCommasGo false false s

/-- `find_closing_single_quote`: index of the closing quote, skipping
    backslash escapes. -/
def findCloseSq : List Char → Option Nat
  | [] => none
  | '\\' :: [] => none
  | '\\' :: _ :: tl => (findCloseSq tl).map (· + 2)
  | c :: tl =>
    if c = squote then some 0 else (findCloseSq tl).map (· + 1)

/-- `is_string_boundary_after`: the next non-whitespace character (if any)
    is structural. -/
def sqBoundAfter (rest : List Char) : Bool :=
  match rest.dropWhile isWs with
  | [] => true
  | d :: _ => d = rbrace || d = ']' || d = ':' || d = ','

/-- `is_string_boundary_before` as a function of the last non-whitespace
    original character before the quote. -/
def sqBoundBefore (lastNonWs : Option Char) : Bool :=
  match lastNonWs with
  | none => true
  | some p => p = lbrace || p = '[' || p = ':' || p = ','

/-- `replace_single_quotes`: convert single-quoted strings at structural
    boundaries to double-quoted, escaping interior double quotes.
    `lastNonWs` tracks the last non-whitespace character of the original
    text before the scan position. -/
def replaceSqGo : Nat → Bool → Bool → Option Char → List Char → List Char
  | 0, _, _, _, s => s
  | _ + 1, _, _, _, [] => []
  | fuel + 1, inD, true, last, c :: tl =>
    c :: replaceSqGo fuel inD false (if isWs c then last else some c) tl
  | fuel + 1, true, false, last, c :: tl =>
    let last' := if isWs c then last else some c
    if c = '\\' then c :: replaceSqGo fuel true true last' tl
    else if c = '"' then c :: replaceSqGo fuel false false last' tl
    else c :: replaceSqGo fuel true false last' tl
  | fuel + 1, false, false, last, c :: tl =>
    if c = '"' then c :: replaceSqGo fuel true false (some c) tl
    else if c = squote then
      if sqBoundBefore last then
        match findCloseSq tl with
        | some close =>
          if sqBoundAfter (tl.drop (close + 1)) then
            let content := tl.take close
            ('"' :: content.flatMap (fun ch => if ch = '"' then ['\\', ch] else [ch]))
              ++ ['"'] ++ replaceSqGo fuel false false (some squote) (tl.drop (close + 1))
          else c :: replaceSqGo fuel false false (some c) tl
        | none => c :: replaceSqGo fuel false false (some c) tl
      else c :: replaceSqGo fuel false false (some c) tl
    else c :: replaceSqGo fuel false false (if isWs c then last else some c) tl

def replace_single_quotes (s : List Char) : List Char :=
  replaceSqGo (s.length + 1) false false none s

/-- `quote_unquoted_keys`: after `{` or `,`, wrap a bare identifier key in
    double quotes when a `:` follows (whitespace between key and colon is
    dropped, as in the source). -/
def quoteKeysGo : Nat → Bool → Bool → List Char → List Char
  | 0, _, _, s => s
  | _ + 1, _, _, [] => []
  | fuel + 1, inS, true, c :: tl => c :: quoteKeysGo fuel inS false tl
  | fuel + 1, true, false, c :: tl =>
    if c = '\\' then c :: quoteKeysGo fuel true true tl
    else if c = '"' then c :: quoteKeysGo fuel false false tl
    else c :: quoteKeysGo fuel true false tl
  | fuel + 1, false, false, c :: tl =>
    if c = '"' then c :: quoteKeysGo fuel true false tl
    else if c = lbrace || c = ',' then
      let wsRun := tl.takeWhile isWs
      let rest1 := tl.dropWhile isWs
      match rest1 with
      | k :: _ =>
        if isAlpha k || k = '_' then
          let ident := rest1.takeWhile (fun x => isAlnum x || x = '_')
          let rest2 := rest1.dropWhile (fun x => isAlnum x || x = '_')
          let ws2 := rest2.takeWhile isWs
          let rest3 := rest2.dropWhile isWs
          match rest3 with
          | ':' :: _ =>
            c :: wsRun ++ '"' :: ident ++ '"' :: quoteKeysGo fuel false false rest3
          | _ =>
            c :: wsRun ++ ident ++ ws2 ++ quoteKeysGo fuel false false rest3
        else c :: wsRun ++ quoteKeysGo fuel false false rest1
      | [] => c :: wsRun ++ quoteKeysGo fuel false false rest1
    else c :: quoteKeysGo fuel false false tl

def quote_unquoted_keys (s : List Char) : List Char :=
  quoteKeysGo (s.length + 1) false false s

/-- `close_missing_brackets`: count unbalanced `{`/`[` outside strings and
    append the missing closers (brackets first, then braces). -/
def close_missing_brackets (s : List Char) : List Char :=
  let st := s.foldl
    (fun (acc : Int × Int × Bool × Bool) ch =>
      let (ob, ok, inS, esc) := acc
      if esc then (ob, ok, inS, false)
      else if inS then
        if ch = '\\' then (ob, ok, inS, true)
        else if ch = '"' then (ob, ok, false, false)
        else (ob, ok, inS, false)
      else if ch = '"' then (ob, ok, true, false)
      else if ch = lbrace then (ob + 1, ok, inS, false)
      else if ch = rbrace then (ob - 1, ok, inS, false)
      else if ch = '[' then (ob, ok + 1, inS, false)
      else if ch = ']' then (ob, ok - 1, inS, false)
      else (ob, ok, inS, false))
    ((0 : Int), (0 : Int), false, false)
  s ++ List.replicate st.2.1.toNat ']' ++ List.replicate st.1.toNat rbrace

/-- `escape_raw_newlines`: replace raw `\n`/`\r` inside strings by the
    two-character escapes. -/
def escapeNlGo : Bool → Bool → List Char → List Char
  | _, _, [] => []
  | inS, true, c :: tl => c :: escapeNlGo inS false tl
  | true, false, c :: tl =>
    if c = '\\' then c :: escapeNlGo true true tl
    else if c = '"' then c :: escapeNlGo false false tl
    else if c = '\n' then '\\' :: 'n' :: escapeNlGo true false tl
    else if c = '\r' then '\\' :: 'r' :: escapeNlGo true false tl
    else c :: escapeNlGo true false tl
  | false, false, c :: tl =>
    if c = '"' then c :: escapeNlGo true false tl
    else c :: escapeNlGo false false tl

def escape_raw_newlines (s : List Char) : List Char :=
  escapeNlGo false false s

/-- `try_repair_json`: `None` when the input is already valid; otherwise the
    seven repair passes in order, accepted only if the result parses. -/
def try_repair_json (broken : List Char) : Option (List Char) :=
  if (jsonParse broken).isSome then none
  else
    let s := strip_comments broken
    let s := replace_python_literals s
    let s := remove_trailing_commas s
    let s := replace_single_quotes s
    let s := quote_unquoted_keys s
    let s := close_missing_brackets s
    let s := escape_raw_newlines s
    if (jsonParse s).isSome then some s else none

/-! ## `output_parser/streaming.rs` -/

/-- One character of the delimiter-tracking walk of `auto_complete_json`:
    state is `(stack of expected closers, inside-string, escaped)`; the stack
    head is the innermost expected closer. -/
def acjStep (st : List Char × Bool × Bool) (ch : Char) : List Char × Bool × Bool :=
  let stack := st.1
  let inS := st.2.1
  let esc := st.2.2
  if esc then (stack, inS, false)
  else if ch = '\\' && inS then (stack, inS, true)
  else if ch = '"' then (stack, !inS, false)
  else if inS then (stack, inS, false)
  else if ch = lbrace then (rbrace :: stack, inS, false)
  else if ch = '[' then (']' :: stack, inS, false)
  else if ch = rbrace || ch = ']' then
    (match stack with
     | e :: rest => if e = ch then rest else stack
     | [] => stack, inS, false)
  else (stack, inS, false)

/-- The trailing-token trimming loop of `auto_complete_json`: iteratively
    drop a trailing comma or a dangling `"key":` pair; `break` leaves the
    untrimmed accumulator unchanged. -/
def trimLoopGo : Nat → List Char → List Char
  | 0, r => r
  | fuel + 1, r =>
    let t := trimRight r
    if t.getLast? = some ',' then trimLoopGo fuel t.dropLast
    else if t.getLast? = some ':' then
      let withoutColon := trimRight t.dropLast
      match rfindChar withoutColon '"' with
      | some quotePos =>
        match rfindChar (withoutColon.take quotePos) '"' with
        | some openPos =>
          let beforeKey := trimRight (withoutColon.take openPos)
          trimLoopGo fuel
            (if beforeKey.getLast? = some ',' then beforeKey.dropLast else beforeKey)
        | none => r
      | none => r
    else r

/-- The completion builder of `auto_complete_json` (everything between the
    early returns and the final validity check): close an unterminated
    string, trim dangling tokens, drop a trailing orphan key inside an
    object, append the pending closers. -/
def acjBuild (trimmed : List Char) : List Char :=
  let st := trimmed.foldl acjStep ([], false, false)
  let stack := st.1
  let result0 := trimmed ++ (if st.2.1 then ['"'] else [])
  let result1 := trimLoopGo (result0.length + 1) result0
  let result2 :=
    if stack.headD ' ' = rbrace then
      let t := trimRight result1
      if ['"'].isSuffixOf t && !(('\\' :: ['"']).isSuffixOf t) then
        let inner := t.dropLast
        match rfindChar inner '"' with
        | some openPos =>
          let before := trimRight (inner.take openPos)
          if before.getLast? = some ',' then before.dropLast else result1
        | none => result1
      else result1
    else result1
  result2 ++ stack

/-- `auto_complete_json`: strip think tags and trim (written out instead of
    the source's local `cleaned`/`trimmed` bindings), return early on empty
    or already-valid input or input not starting with a brace/bracket, then
    run the completion builder and accept only if the result parses. -/
def auto_complete_json (input : List Char) : Option (List Char) :=
  if trim (strip_think_tags input) = [] then none
  else if (jsonParse (trim (strip_think_tags input))).isSome then
    some (trim (strip_think_tags input))
  else if !((trim (strip_think_tags input)).headD ' ' = lbrace
      || (trim (strip_think_tags input)).headD ' ' = '[') then none
  else if (jsonParse (acjBuild (trim (strip_think_tags input)))).isSome then
    some (acjBuild (trim (strip_think_tags input)))
  else none

/-- C5: whenever `auto_complete_json` returns a result, that result parses
    as JSON; and on the truncated input
    `{"title": "Matrix", "year": 1999, "rating` it returns the string that
    parses to the object with the orphan key stripped. -/
theorem auto_complete_json_safety :
    (∀ t r : List Char, auto_complete_json t = some r → (jsonParse r).isSome = true) ∧
    auto_complete_json "\x7b\"title\": \"Matrix\", \"year\": 1999, \"rating".data
      = some "\x7b\"title\": \"Matrix\", \"year\": 1999\x7d".data ∧
    jsonParse "\x7b\"title\": \"Matrix\", \"year\": 1999\x7d".data
      = some (Json.obj [("title".data, Json.str "Matrix".data),
          ("year".data, Json.num 1999)]) := by
  refine ⟨?_, by decide, by rfl⟩
  intro t r h
  unfold auto_complete_json at h
  by_cases h1 : trim (strip_think_tags t) = []
  · rw [if_pos h1] at h; cases h
  · rw [if_neg h1] at h
    by_cases h2 : (jsonParse (trim (strip_think_tags t))).isSome = true
    · rw [if_pos h2] at h
      cases h
      exact h2
    · rw [if_neg h2] at h
      by_cases h3 : (!((trim (strip_think_tags t)).headD ' ' = lbrace
          || (trim (strip_think_tags t)).headD ' ' = '[')) = true
      · rw [if_pos h3] at h; cases h
      · rw [if_neg h3] at h
        by_cases h4 : (jsonParse (acjBuild (trim (strip_think_tags t)))).isSome = true
        · rw [if_pos h4] at h
          cases h
          exact h4
        · rw [if_neg h4] at h; cases h

/-- Witness for `auto_complete_json_safety`: its universal part applied at
    the concrete truncated input. -/
theorem auto_complete_json_safety_witness :
    (jsonParse "\x7b\"title\": \"Matrix\", \"year\": 1999\x7d".data).isSome = true :=
  auto_complete_json_safety.1 "\x7b\"title\": \"Matrix\", \"year\": 1999, \"rating".data
    "\x7b\"title\": \"Matrix\", \"year\": 1999\x7d".data (by decide)

/-- C6 counterexample: for a string `V` that is already valid JSON,
    `try_repair_json(V)` is `None` (reporting "no repair needed"), not
    `Some(V)`: the repair operation does not return the input. -/
theorem try_repair_json_valid_not_identity :
    try_repair_json "\x7b\x7d".data = none ∧
    (none : Option (List Char)) ≠ some "\x7b\x7d".data := by
  constructor
  · decide
  · intro h; cases h

/-- C6 (amended): for every string `V` that already parses as valid JSON,
    `try_repair_json(V)` returns `None` — "input was already valid, no
    repair applied" — so the caller keeps using `V` itself and the repair
    never alters valid JSON. -/
theorem try_repair_json_valid_none (v : List Char)
    (h : (jsonParse v).isSome = true) : try_repair_json v = none := by
  unfold try_repair_json
  rw [if_pos h]

/-- Witness for `try_repair_json_valid_none` at a concrete valid document. -/
theorem try_repair_json_valid_none_witness :
    try_repair_json "[1, 2]".data = none :=
  try_repair_json_valid_none "[1, 2]".data (by decide)

/-! ## `output_parser/extract.rs`: code blocks and bracket matching -/

/-- ASCII lowercase (model of Rust `to_lowercase`/`to_ascii_lowercase`;
    all text in this development is ASCII). -/
def asciiLower (c : Char) : Char :=
  if 'A' ≤ c && c ≤ 'Z' then Char.ofNat (c.toNat + 32) else c

def lowerStr (s : List Char) : List Char := s.map asciiLower

/-- Rust `eq_ignore_ascii_case`. -/
def eqIgnoreCase (a b : List Char) : Bool := lowerStr a == lowerStr b

/-- Loop of `extract_code_block`: `searchFrom` advances past an opening
    fence whose block has no closing fence. -/
def ecbGo (text : List Char) : Nat → Nat → Option (Option (List Char) × List Char)
  | 0, _ => none
  | fuel + 1, searchFrom =>
    match findSub (text.drop searchFrom) "```".data with
    | none => none
    | some fenceStart =>
      let after := searchFrom + fenceStart + 3
      match findSub (text.drop after) ['\n'] with
      | none => none
      | some lineEnd =>
        let langStr := trim ((text.drop after).take lineEnd)
        let contentStart := after + lineEnd + 1
        match findSub (text.drop contentStart) "```".data with
        | some closeOff =>
          some ((if langStr = [] then none else some langStr),
            trim ((text.drop contentStart).take closeOff))
        | none => ecbGo text fuel after

/-- `extract_code_block`: first fenced block, `(language_hint, content)`. -/
def extract_code_block (text : List Char) : Option (Option (List Char) × List Char) :=
  ecbGo text (text.length + 1) 0

/-- Loop of `extract_code_block_for`: advance past blocks whose language
    does not match or which have no closing fence. -/
def ecbForGo (text lang : List Char) : Nat → Nat → Option (List Char)
  | 0, _ => none
  | fuel + 1, searchFrom =>
    match findSub (text.drop searchFrom) "```".data with
    | none => none
    | some fenceStart =>
      let after := searchFrom + fenceStart + 3
      match findSub (text.drop after) ['\n'] with
      | none => none
      | some lineEnd =>
        let langStr := trim ((text.drop after).take lineEnd)
        let contentStart := after + lineEnd + 1
        if eqIgnoreCase langStr lang then
          match findSub (text.drop contentStart) "```".data with
          | some closeOff => some (trim ((text.drop contentStart).take closeOff))
          | none => ecbForGo text lang fuel contentStart
        else ecbForGo text lang fuel contentStart

/-- `extract_code_block_for`: content of the first block with a matching
    language tag. -/
def extract_code_block_for (text lang : List Char) : Option (List Char) :=
  ecbForGo text lang (text.length + 1) 0

/-- Inner scan of `find_bracketed`: nesting depth with string-literal and
    escape awareness; returns the index of the closer bringing the depth
    back to zero.  The scan starts on the opening delimiter, so the Rust
    `depth -= 1; depth == 0` test is `depth = 1` here. -/
def fbScan (op cl : Char) : List Char → Nat → Bool → Bool → Nat → Option Nat
  | [], _, _, _, _ => none
  | c :: tl, depth, inS, esc, i =>
    if esc then fbScan op cl tl depth inS false (i + 1)
    else if c = '\\' && inS then fbScan op cl tl depth inS true (i + 1)
    else if c = '"' then fbScan op cl tl depth (!inS) false (i + 1)
    else if inS then fbScan op cl tl depth inS false (i + 1)
    else if c = op then fbScan op cl tl (depth + 1) inS false (i + 1)
    else if c = cl then
      (if depth = 1 then some i else fbScan op cl tl (depth - 1) inS false (i + 1))
    else fbScan op cl tl depth inS false (i + 1)

/-- Outer loop of `find_bracketed`: keep the latest balanced region. -/
def fbGo (text : List Char) (op cl : Char) : Nat → Nat → Option (List Char) → Option (List Char)
  | 0, _, best => best
  | fuel + 1, scanFrom, best =>
    if scanFrom < text.length then
      match findChar (text.drop scanFrom) op with
      | none => best
      | some offset =>
        let start := scanFrom + offset
        match fbScan op cl (text.drop start) 0 false false 0 with
        | some i =>
          fbGo text op cl fuel (start + i + 1) (some ((text.drop start).take (i + 1)))
        | none => best
    else best

/-- `find_bracketed`: the last balanced `op…cl` region. -/
def find_bracketed (text : List Char) (op cl : Char) : Option (List Char) :=
  fbGo text op cl (text.length + 1) 0 none

/-! ## `output_parser/error.rs` -/

inductive ParseErr where
  | emptyResponse : ParseErr
  | unparseable (expectedFormat : List Char) (text : List Char) : ParseErr
  | deserializationFailed (reason : List Char) (rawJson : List Char) : ParseErr
  | noMatchingChoice (valid : List (List Char)) : ParseErr
  | noNumber : ParseErr

/-- `truncate` in `error.rs`. -/
def truncate (s : List Char) (maxLen : Nat) : List Char :=
  if s.length ≤ maxLen then s else s.take maxLen ++ "...".data

/-- The `Display` rendering of `ParseError` (the crate stores
    `e.to_string()` in diagnostics); the `{:?}` list formatting of
    `NoMatchingChoice` is modelled by quoting and comma-separation. -/
def perrString : ParseErr → List Char
  | .emptyResponse => "empty LLM response".data
  | .unparseable f t => "could not parse ".data ++ f ++ " from LLM response: ".data ++ t
  | .deserializationFailed r _ => "JSON deserialization failed: ".data ++ r
  | .noMatchingChoice valid =>
    "no valid choice found in response (valid: [".data
      ++ List.intercalate ", ".data (valid.map (fun v => '"' :: v ++ ['"'])) ++ "])".data
  | .noNumber => "no valid number found in response".data

/-- Placeholder for the message of a `serde_json` deserialization error
    (`e.to_string()`); the external library's message text is opaque to this
    development and nothing below inspects it. -/
def serdeErrMsg : List Char := "invalid JSON".data

/-! ## `output_parser/json.rs` -/

/-- Strategies 4-6 of `extract_json_candidate` in `json.rs` (bracket match
    then fall back to the cleaned text). -/
def opEjcBrackets (cleaned : List Char) : Except ParseErr (List Char × List Char) :=
  match find_bracketed cleaned lbrace rbrace with
  | some b => .ok (b, cleaned)
  | none =>
    match find_bracketed cleaned '[' ']' with
    | some b => .ok (b, cleaned)
    | none => .ok (cleaned, cleaned)

/-- The private `extract_json_candidate` of `output_parser/json.rs`
    (distinct from the function of the same name in `parsing.rs`):
    returns `(best_candidate, cleaned_text)`. -/
def op_extract_json_candidate (response : List Char) :
    Except ParseErr (List Char × List Char) :=
  if trim response = [] then .error .emptyResponse
  else
    let cleaned := preprocess (trim response)
    if cleaned = [] then .error .emptyResponse
    else if (jsonParse cleaned).isSome then .ok (cleaned, cleaned)
    else
      match extract_code_block_for cleaned "json".data with
      | some content => .ok (content, cleaned)
      | none =>
        match extract_code_block cleaned with
        | some (_, content) =>
          let tc := trim content
          if tc.headD ' ' = lbrace || tc.headD ' ' = '[' then .ok (tc, cleaned)
          else opEjcBrackets cleaned
        | none => opEjcBrackets cleaned

/-- `parse_json::<Value>` / `parse_json_value`: candidate extraction, then
    direct parse, repair of the candidate, repair of the full cleaned text,
    and streaming auto-completion, in order. -/
def parse_json_value (response : List Char) : Except ParseErr Json :=
  match op_extract_json_candidate response with
  | .error e => .error e
  | .ok (candidate, cleaned) =>
    match jsonParse candidate with
    | some v => .ok v
    | none =>
      match (try_repair_json candidate).bind jsonParse with
      | some v => .ok v
      | none =>
        match (if candidate ≠ cleaned then (try_repair_json cleaned).bind jsonParse
            else none) with
        | some v => .ok v
        | none =>
          match (auto_complete_json candidate).bind jsonParse with
          | some v => .ok v
          | none => .error (.deserializationFailed serdeErrMsg (truncate candidate 200))

/-! ## `output_parser/list.rs` -/

/-- Model of `serde_json::from_str::<Vec<String>>`: a JSON array whose
    elements are all strings. -/
def parseStringArray (s : List Char) : Option (List (List Char)) :=
  match jsonParse s with
  | some (.arr xs) => asStrList xs
  | _ => none
where
  asStrList : List Json → Option (List (List Char))
    | [] => some []
    | .str v :: tl => (asStrList tl).map (v :: ·)
    | _ => none

/-- `Value::as_str`-based extraction used by `try_extract_list_from_object`. -/
def jsonAsStr : Json → Option (List Char)
  | .str s => some s
  | _ => none

/-- `Value::get` on an object (first occurrence of the key). -/
def jGet (v : Json) (key : List Char) : Option Json :=
  match v with
  | .obj kvs => (kvs.find? (fun kv => kv.1 == key)).map (·.2)
  | _ => none

/-- `try_extract_list_from_object`: parse as a JSON object and pull an array
    of strings out of the first of the keys `tags`/`items`/`results`/`list`
    that holds a non-empty one (non-string elements are skipped). -/
def try_extract_list_from_object (text : List Char) : Option (List (List Char)) :=
  match jsonParse text with
  | none => none
  | some val => goKeys val ["tags".data, "items".data, "results".data, "list".data]
where
  goKeys (val : Json) : List (List Char) → Option (List (List Char))
    | [] => none
    | k :: rest =>
      match jGet val k with
      | some (.arr a) =>
        let tags := a.filterMap jsonAsStr
        if tags ≠ [] then some tags else goKeys val rest
      | _ => goKeys val rest

/-- `extract_list_from_code_block`: first code block as an array, an object
    with list keys, or (for a `json`-tagged block) a repaired array. -/
def extract_list_from_code_block (text : List Char) : Option (List (List Char)) :=
  match extract_code_block text with
  | none => none
  | some (lang, content) =>
    match parseStringArray content with
    | some arr => some arr
    | none =>
      match try_extract_list_from_object content with
      | some tags => some tags
      | none =>
        if lang = some "json".data then
          match try_repair_json content with
          | some repaired => parseStringArray repaired
          | none => none
        else none

/-- Trim matching characters repeatedly from both ends
    (Rust `trim_matches`). -/
def trimMatchesP (p : Char → Bool) (s : List Char) : List Char :=
  ((s.dropWhile p).reverse.dropWhile p).reverse

/-- Split on newlines (Rust `str::lines`; a final empty segment after a
    trailing newline yields no list item downstream, so the difference from
    `lines` is immaterial here). -/
def splitLines (s : List Char) : List (List Char) :=
  (s.splitOn '\n').map (fun l => trimMatchesP (· = '\r') l)

/-- The per-line matcher of `extract_from_list`: a numbered item
    (`1. x`, `2) y`) or a bulleted item (`-`, `*`, `•`). -/
def lineTag (line : List Char) : Option (List Char) :=
  let t := trim line
  let numbered : Option (List Char) :=
    match t with
    | d :: rest =>
      if isDigit d then
        let afterDigits := rest.dropWhile isDigit
        match afterDigits with
        | '.' :: r => some r
        | ')' :: r => some r
        | _ => none
      else none
    | [] => none
  match numbered with
  | some r =>
    let tag := trim (trimMatchesP (· = '"') (trim r))
    if tag ≠ [] then some tag else bullets t
  | none => bullets t
where
  bullets (t : List Char) : Option (List Char) :=
    goBullets t ["-".data, "*".data, "•".data]
  goBullets (t : List Char) : List (List Char) → Option (List Char)
    | [] => none
    | p :: rest =>
      if p.isPrefixOf t then
        let tag := trim (trimMatchesP (· = '"') (trim (t.drop p.length)))
        if tag ≠ [] then some tag else goBullets t rest
      else goBullets t rest

/-- `extract_from_list`: at least two numbered/bulleted items. -/
def extract_from_list (text : List Char) : Option (List (List Char)) :=
  let items := (splitLines text).filterMap lineTag
  if 2 ≤ items.length then some items else none

/-- `parse_string_list_inner`: the seven list-extraction strategies. -/
def parse_string_list_inner (response : List Char) : Except ParseErr (List (List Char)) :=
  let trimmed := trim response
  if trimmed = [] then .error .emptyResponse
  else
    match parseStringArray trimmed with
    | some arr => .ok arr
    | none =>
      let cleaned := preprocess trimmed
      if cleaned = [] then .error .emptyResponse
      else
        match parseStringArray cleaned with
        | some arr => .ok arr
        | none =>
          match try_extract_list_from_object cleaned with
          | some tags => .ok tags
          | none =>
            match extract_list_from_code_block cleaned with
            | some tags => .ok tags
            | none =>
              match (find_bracketed cleaned '[' ']').bind (fun bs =>
                  match parseStringArray bs with
                  | some arr => some arr
                  | none => (try_repair_json bs).bind parseStringArray) with
              | some arr => .ok arr
              | none =>
                match (try_repair_json cleaned).bind (fun repaired =>
                    match parseStringArray repaired with
                    | some arr => some arr
                    | none => try_extract_list_from_object repaired) with
                | some arr => .ok arr
                | none =>
                  match extract_from_list cleaned with
                  | some tags => .ok tags
                  | none =>
                    let tags := (cleaned.splitOn ',').map
                      (fun s => trim (trimMatchesP (· = '"') (trim s)))
                      |>.filter (· ≠ [])
                    if tags = [] then
                      .error (.unparseable "string list".data (truncate cleaned 200))
                    else .ok tags

/-- `parse_string_list_raw`: inner strategies, then trim and drop empties
    (no lowercasing, no dedup, no length filter). -/
def parse_string_list_raw (response : List Char) : Except ParseErr (List (List Char)) :=
  (parse_string_list_inner response).map
    (fun items => (items.map trim).filter (· ≠ []))

/-! ## `output_parser/choice.rs` -/

/-- Repeatedly strip a leading `**` (Rust `trim_start_matches("**")`). -/
def trimStarsL : Nat → List Char → List Char
  | 0, s => s
  | fuel + 1, s =>
    if "**".data.isPrefixOf s then trimStarsL fuel (s.drop 2) else s

/-- The wrapper-stripping chain of `parse_choice`. -/
def choiceStrip (lower : List Char) : List Char :=
  let s0 := trimMatchesP (fun c => c = '.' || c = '!' || c = ',' || isWs c) lower
  let s1 := trimStarsL (s0.length + 1) s0
  let s2 := (trimStarsL (s1.length + 1) s1.reverse).reverse
  let s3 := trimMatchesP (· = '"') s2
  let s4 := trimMatchesP (· = squote) s3
  let s5 := trimMatchesP (· = '(') s4
  let s6 := trimMatchesP (· = ')') s5
  trim s6

/-- Strategy 1 of `parse_choice`: exact case-insensitive match. -/
def chExact (stripped : List Char) : List (List Char) → Option (List Char)
  | [] => none
  | ch :: rest => if eqIgnoreCase stripped ch then some ch else chExact stripped rest

/-- Strategy 2 of `parse_choice`: the stripped text starts with a choice at
    a word boundary. -/
def chStarts (stripped : List Char) : List (List Char) → Option (List Char)
  | [] => none
  | ch :: rest =>
    let cl := lowerStr ch
    if cl.isPrefixOf stripped then
      if stripped.length ≤ cl.length
          || !(isAlnum ((stripped.drop cl.length).headD ' ')) then some ch
      else chStarts stripped rest
    else chStarts stripped rest

/-- `find_word_boundary_match`: first occurrence of `needle` delimited by
    non-alphanumeric characters. -/
def fwbmGo (hay needle : List Char) : Nat → Nat → Option Nat
  | 0, _ => none
  | fuel + 1, searchFrom =>
    match findSub (hay.drop searchFrom) needle with
    | none => none
    | some pos =>
      let absPos := searchFrom + pos
      let endPos := absPos + needle.length
      let bBefore := absPos = 0 || !(isAlnum ((hay.drop (absPos - 1)).headD ' '))
      let bAfter := hay.length ≤ endPos || !(isAlnum ((hay.drop endPos).headD ' '))
      if bBefore && bAfter then some absPos else fwbmGo hay needle fuel (absPos + 1)

def find_word_boundary_match (hay needle : List Char) : Option Nat :=
  fwbmGo hay needle (hay.length + 1) 0

/-- Strategy 3 of `parse_choice`: the earliest word-boundary occurrence of
    any choice wins (strictly earlier positions replace the current best). -/
def chBest (lower : List Char) : List (List Char) →
    Option (List Char × Nat) → Option (List Char × Nat)
  | [], best => best
  | ch :: rest, best =>
    let best' := match find_word_boundary_match lower (lowerStr ch) with
      | some pos =>
        match best with
        | none => some (ch, pos)
        | some (b, bp) => if pos < bp then some (ch, pos) else some (b, bp)
      | none => best
    chBest lower rest best'

/-- `parse_choice`: extract one of `valid` from the response. -/
def parse_choice (response : List Char) (valid : List (List Char)) :
    Except ParseErr (List Char) :=
  let cleaned := preprocess response
  if cleaned = [] then .error .emptyResponse
  else
    let lower := lowerStr cleaned
    let stripped := choiceStrip lower
    match chExact stripped valid with
    | some c => .ok c
    | none =>
      match chStarts stripped valid with
      | some c => .ok c
      | none =>
        match chBest lower valid none with
        | some (c, _) => .ok c
        | none => .error (.noMatchingChoice valid)

/-! ## `output_parser/number.rs` -/

/-- Model of `str::parse::<f64>` on finite decimal inputs (optional sign,
    digits with optional fraction, optional exponent; `inf`/`NaN` forms are
    not modelled — no claim involves them).  The value is exact in `Rat`. -/
def parseF64 (s : List Char) : Option Rat :=
  let (neg, s1) := match s with
    | '-' :: tl => (true, tl)
    | '+' :: tl => (false, tl)
    | _ => (false, s)
  let ip := s1.takeWhile isDigit
  let r1 := s1.dropWhile isDigit
  let (fp, r2) := match r1 with
    | '.' :: tl => (tl.takeWhile isDigit, tl.dropWhile isDigit)
    | _ => (([] : List Char), r1)
  if ip.isEmpty && fp.isEmpty then none
  else
    let expRes : Option (Int × List Char) := match r2 with
      | 'e' :: tl => jsonNumGo.jsonExpGo tl
      | 'E' :: tl => jsonNumGo.jsonExpGo tl
      | _ => some (0, r2)
    match expRes with
    | none => none
    | some (e, r3) =>
      if r3 = [] then
        let mantissa : Nat := digitsToNat (ip ++ fp)
        let base : Rat :=
          if fp.isEmpty then (mantissa : Rat)
          else (mantissa : Rat) / ((10 : Rat) ^ fp.length)
        let scaled : Rat := if e = 0 then base else base * (10 : Rat) ^ e
        some (if neg then -scaled else scaled)
      else none

/-- `find_all_numbers`: every maximal `-?digits(.digits)?` run. -/
def fanGo : Nat → List Char → List (List Char)
  | 0, _ => []
  | _ + 1, [] => []
  | fuel + 1, c :: tl =>
    let isNeg := c = '-' && (match tl with | d :: _ => isDigit d | [] => false)
    if isDigit c || isNeg then
      let afterSign := if isNeg then tl else c :: tl
      let sign : List Char := if isNeg then ['-'] else []
      let ds := afterSign.takeWhile isDigit
      let r1 := afterSign.dropWhile isDigit
      let (fr, r2) := match r1 with
        | '.' :: d :: tl2 =>
          if isDigit d then ('.' :: d :: tl2.takeWhile isDigit, tl2.dropWhile isDigit)
          else (([] : List Char), r1)
        | _ => (([] : List Char), r1)
      (sign ++ ds ++ fr) :: fanGo fuel r2
    else fanGo fuel tl

def find_all_numbers (text : List Char) : List (List Char) :=
  fanGo (text.length + 1) text

/-- `extract_fraction`: the numerator of the first parseable `N/M` pattern;
    `before` carries the already-scanned characters in reverse. -/
def extFracGo (before : List Char) : List Char → Option Rat
  | [] => none
  | c :: tl =>
    if c = '/' then
      let numStr := (before.takeWhile (fun x => isDigit x || x = '.' || x = '-')).reverse
      if numStr ≠ [] then
        match parseF64 numStr with
        | some v => some v
        | none => extFracGo (c :: before) tl
      else extFracGo (c :: before) tl
    else extFracGo (c :: before) tl

/-- The labeled-pattern strategy of `parse_number`
    (`score:`/`rating:`/`result:` followed by the first number). -/
def pnLabels (cleaned lower : List Char) : List (List Char) → Option Rat
  | [] => none
  | lab :: rest =>
    match findSub lower lab with
    | some pos =>
      let after := cleaned.drop (pos + lab.length)
      match (find_all_numbers after).head? with
      | some first =>
        match parseF64 first with
        | some v => some v
        | none => pnLabels cleaned lower rest
      | none => pnLabels cleaned lower rest
    | none => pnLabels cleaned lower rest

/-- The last-number strategy of `parse_number` (candidates from the end). -/
def pnFromEnd : List (List Char) → Option Rat
  | [] => none
  | n :: rest =>
    match parseF64 n with
    | some v => some v
    | none => pnFromEnd rest

/-- `parse_number::<f64>`: direct parse, labeled patterns, fraction
    numerator, then the last number in the text. -/
def parse_number (response : List Char) : Except ParseErr Rat :=
  let cleaned := preprocess response
  if cleaned = [] then .error .emptyResponse
  else
    match parseF64 cleaned with
    | some v => .ok v
    | none =>
      let lower := lowerStr cleaned
      match pnLabels cleaned lower ["score:".data, "rating:".data, "result:".data] with
      | some v => .ok v
      | none =>
        match extFracGo [] cleaned with
        | some v => .ok v
        | none =>
          match pnFromEnd (find_all_numbers cleaned).reverse with
          | some v => .ok v
          | none => .error .noNumber

/-- `parse_number_in_range::<f64>`: bounds check on top of `parse_number`. -/
def parse_number_in_range (response : List Char) (mn mx : Rat) : Except ParseErr Rat :=
  match parse_number response with
  | .error e => .error e
  | .ok v => if v < mn || mx < v then .error .noNumber else .ok v

/-! ## `output_parser/text.rs` -/

def SIMPLE_PREFIXES : List (List Char) :=
  ["Sure! ".data, "Sure, ".data, "Sure.\n".data,
   "Of course! ".data, "Of course, ".data, "Of course.\n".data,
   "Certainly! ".data, "Certainly, ".data, "Certainly.\n".data,
   "Absolutely! ".data, "Absolutely, ".data]

/-- `LINE_PREFIXES` (the apostrophe of the first entry is spelled via
    `squote`). -/
def LINE_PREFIXES : List (List Char) :=
  ["Here".data ++ squote :: "s ".data, "Here is ".data]

/-- The simple-prefix pass of `parse_text` (first match wins). -/
def ptSimple (cleaned : List Char) : List (List Char) → List Char
  | [] => cleaned
  | p :: rest =>
    if p.isPrefixOf cleaned then cleaned.drop p.length else ptSimple cleaned rest

/-- The line-prefix pass of `parse_text`: consume up to the next newline or
    colon; a matching prefix with neither separator falls through to the
    next prefix. -/
def ptLine (cleaned : List Char) : List (List Char) → List Char
  | [] => cleaned
  | p :: rest =>
    if p.isPrefixOf cleaned then
      let r := cleaned.drop p.length
      match findChar r '\n' with
      | some pos => trimLeft (r.drop (pos + 1))
      | none =>
        match findChar r ':' with
        | some pos => trimLeft (r.drop (pos + 1))
        | none => ptLine cleaned rest
    else ptLine cleaned rest

/-- `parse_text`: preprocess, strip boilerplate, reject empty results. -/
def parse_text (response : List Char) : Except ParseErr (List Char) :=
  let cleaned := preprocess response
  if cleaned = [] then .error .emptyResponse
  else
    let text1 := ptSimple cleaned SIMPLE_PREFIXES
    let text2 := if text1 = cleaned then ptLine cleaned LINE_PREFIXES else text1
    let result := trim text2
    if result = [] then .error .emptyResponse else .ok result

/-! ## `output_parser/xml.rs` -/

/-- `parse_xml_tag`: content of `<tag>…</tag>`, to end of text when the
    closing tag is missing. -/
def parse_xml_tag (response tag : List Char) : Except ParseErr (List Char) :=
  let cleaned := preprocess response
  if cleaned = [] then .error .emptyResponse
  else
    let openTag := '<' :: tag ++ ['>']
    let closeTag := '<' :: '/' :: tag ++ ['>']
    match findSub cleaned openTag with
    | some start =>
      let rest := cleaned.drop (start + openTag.length)
      let content := match findSub rest closeTag with
        | some e => rest.take e
        | none => rest
      .ok (trim content)
    | none => .error (.unparseable "XML tag".data (truncate cleaned 200))

/-! ## `output_strategy.rs`, `diagnostics.rs`, `payload.rs` -/

/-- `OutputStrategy` (the `f64` bounds of `NumberInRange` are modelled by
    `Rat`, the `Custom` parse function by a Lean function). -/
inductive OutputStrategy where
  | lossy : OutputStrategy
  | json : OutputStrategy
  | stringList : OutputStrategy
  | xmlTag (tag : List Char) : OutputStrategy
  | choice (choices : List (List Char)) : OutputStrategy
  | number : OutputStrategy
  | numberInRange (mn mx : Rat) : OutputStrategy
  | text : OutputStrategy
  | custom (f : List Char → Except ParseErr Json) : OutputStrategy

/-- The `matches!(self.output_strategy, OutputStrategy::Json)` test. -/
def OutputStrategy.isJson : OutputStrategy → Bool
  | .json => true
  | _ => false

/-- `ParseDiagnostics` (`&'static str` strategy tags and the rendered error
    message as character lists; `u32`/`u64` counters as `Nat`). -/
structure ParseDiagnostics where
  strategy : Option (List Char) := none
  parse_error : Option (List Char) := none
  retry_attempts : Nat := 0
  transport_retries : Nat := 0
  backoff_total_ms : Nat := 0
  repaired : Bool := false
  auto_completed : Bool := false

/-- `ParseDiagnostics::ok`. -/
def ParseDiagnostics.ok (d : ParseDiagnostics) : Bool := d.parse_error.isNone

/-- `PayloadOutput`. -/
structure PayloadOutput where
  value : Json
  raw_response : List Char
  thinking : Option (List Char)
  model : Option (List Char)
  diagnostics : Option ParseDiagnostics

/-! ## `llm_call.rs`: `build_output` -/

/-- The strategy tag written into `diag.strategy` in each `build_output`
    branch. -/
def strategyTag : OutputStrategy → List Char
  | .lossy => "lossy".data
  | .json => "json".data
  | .stringList => "string_list".data
  | .xmlTag _ => "xml_tag".data
  | .choice _ => "choice".data
  | .number => "number".data
  | .numberInRange _ _ => "number_in_range".data
  | .text => "text".data
  | .custom _ => "custom".data

/-- The parser invoked by each `build_output` branch, with the branch's
    success conversion to a `Value` (`Lossy` never fails). -/
def strategyParse : OutputStrategy → List Char → Except ParseErr Json
  | .lossy, cleaned => .ok (parse_value_lossy cleaned)
  | .json, cleaned => parse_json_value cleaned
  | .stringList, cleaned =>
    (parse_string_list_raw cleaned).map (fun items => Json.arr (items.map Json.str))
  | .xmlTag tag, cleaned => (parse_xml_tag cleaned tag).map Json.str
  | .choice cs, cleaned => (parse_choice cleaned cs).map Json.str
  | .number, cleaned => (parse_number cleaned).map Json.num
  | .numberInRange mn mx, cleaned => (parse_number_in_range cleaned mn mx).map Json.num
  | .text, cleaned => (parse_text cleaned).map Json.str
  | .custom f, cleaned => f cleaned

/-- `LlmCall::build_output`: extract thinking (the `extract_thinking`
    panic on reversed tags propagates, modelled as `none`), run the
    configured strategy's parser, record a parse failure in diagnostics
    while falling back to a lossy (json strategy) or string-wrapping
    value, and set the `repaired` flag exactly when the json strategy
    succeeded although the cleaned text does not parse directly. -/
def build_output (strategy : OutputStrategy) (model raw_text : List Char) :
    Option PayloadOutput :=
  match extract_thinking raw_text with
  | none => none
  | some (thinking, cleaned) =>
    let res := strategyParse strategy cleaned
    let value := match res with
      | .ok v => v
      | .error _ =>
        match strategy with
        | .json => parse_value_lossy cleaned
        | _ => Json.str cleaned
    let parseError : Option (List Char) := match res with
      | .ok _ => none
      | .error e => some (perrString e)
    let repaired : Bool := parseError.isNone && strategy.isJson && !(jsonParse cleaned).isSome
    some
      { value := value
        raw_response := raw_text
        thinking := thinking
        model := some model
        diagnostics := some
          { strategy := some (strategyTag strategy)
            parse_error := parseError
            retry_attempts := 0
            transport_retries := 0
            backoff_total_ms := 0
            repaired := repaired
            auto_completed := false } }

/-- C1 (code bug): the claim that output construction always returns a
    defined payload output — the contract stated in `build_output`'s own
    doc comment (`llm_call.rs` line 364: it MUST always return
    `Ok(PayloadOutput)`, with parse failures recorded in diagnostics) —
    fails on any raw text whose first `</think>` precedes its first
    `<think>`.  At the failing input `</think><think>` the open tag is
    found at index 8 and the close tag at index 0, so the source slices
    `text[15..0]` and panics inside `extract_thinking`; `build_output`
    therefore produces no output at all, for every strategy and model. -/
theorem build_output_panics_on_reversed_tags :
    findSub "</think><think>".data "<think>".data = some 8 ∧
    findSub "</think><think>".data "</think>".data = some 0 ∧
    extract_thinking "</think><think>".data = none ∧
    ∀ (strategy : OutputStrategy) (model : List Char),
      build_output strategy model "</think><think>".data = none := by
  refine ⟨by decide, by decide, by decide, ?_⟩
  intro strategy model
  rfl

theorem isJson_eq_true_iff (s : OutputStrategy) : s.isJson = true ↔ s = .json := by
  cases s <;> simp [OutputStrategy.isJson]

theorem isSome_eq_false_iff_none (o : Option Json) : o.isSome = false ↔ o = none := by
  cases o <;> simp

/-- C2: on every raw model text on which reasoning extraction succeeds
    (the reversed-tag inputs on which `extract_thinking` panics are the
    sole exception; see C1), `build_output` produces an output whose
    `repaired` diagnostic is `true` exactly when the configured strategy
    is json, no parse error was recorded, and a direct JSON parse of the
    cleaned text fails. -/
theorem build_output_repaired_iff (strategy : OutputStrategy)
    (model raw : List Char) (thinking : Option (List Char)) (cleaned : List Char)
    (out : PayloadOutput) (d : ParseDiagnostics)
    (hext : extract_thinking raw = some (thinking, cleaned))
    (hout : build_output strategy model raw = some out)
    (hdiag : out.diagnostics = some d) :
    d.repaired = true ↔
      (strategy = OutputStrategy.json ∧ d.parse_error = none ∧
        jsonParse cleaned = none) := by
  simp only [build_output, hext] at hout
  injection hout with hout
  subst hout
  injection hdiag with hdiag
  subst hdiag
  simp only [build_output]
  rw [Bool.and_assoc, Bool.and_eq_true, Bool.and_eq_true,
    Option.isNone_iff_eq_none, isJson_eq_true_iff, Bool.not_eq_true',
    isSome_eq_false_iff_none]
  constructor
  · rintro ⟨h1, h2, h3⟩
    exact ⟨h2, h1, h3⟩
  · rintro ⟨h1, h2, h3⟩
    exact ⟨h2, h1, h3⟩

/-- The diagnostics `build_output` produces for the json strategy on the
    raw text `7` (direct parse succeeds, nothing repaired). -/
def sampleJsonDiag : ParseDiagnostics :=
  { strategy := some "json".data
    parse_error := none
    retry_attempts := 0
    transport_retries := 0
    backoff_total_ms := 0
    repaired := false
    auto_completed := false }

/-- The payload output `build_output` produces for the json strategy on
    the raw text `7` with model `m`. -/
def sampleJsonOut : PayloadOutput :=
  { value := Json.num 7
    raw_response := "7".data
    thinking := none
    model := some "m".data
    diagnostics := some sampleJsonDiag }

/-- Witness for `build_output_repaired_iff` at the concrete json-strategy
    input `7`: extraction succeeds (no think tags), the direct parse
    succeeds, and the `repaired` flag is `false` (as is the right-hand
    side: the cleaned text parses). -/
theorem build_output_repaired_iff_witness :
    sampleJsonDiag.repaired = true ↔
      (OutputStrategy.json = OutputStrategy.json ∧
        sampleJsonDiag.parse_error = none ∧
        jsonParse "7".data = none) :=
  build_output_repaired_iff OutputStrategy.json "m".data "7".data none "7".data
    sampleJsonOut sampleJsonDiag (by decide) (by rfl) (by rfl)

/-! ## `error.rs` -/

/-- `PipelineError` (`reqwest`/`serde` payloads reduced to their messages;
    the `Retry-After` `Duration` to whole seconds as parsed by the
    backends). -/
inductive PipelineErr where
  | request (msg : List Char) : PipelineErr
  | json (msg : List Char) : PipelineErr
  | stageFailed (stage : List Char) (message : List Char) : PipelineErr
  | cancelled : PipelineErr
  | invalidConfig (msg : List Char) : PipelineErr
  | httpError (status : Nat) (body : List Char) (retryAfterSecs : Option Nat) : PipelineErr
  | other (msg : List Char) : PipelineErr

/-- Whether an error is the `StageFailed` variant. -/
def PipelineErr.isStageFailed : PipelineErr → Bool
  | .stageFailed _ _ => true
  | _ => false

/-! ## `chain.rs`

A payload is modelled by its observable behaviour: a function from the
input value to the invocation result (`Payload::invoke`, with the shared
context fixed).  The cancellation flag is a constant of the run. -/

/-- The body of `Chain::execute_all`: cancellation check, invoke, pipe the
    output value, collect every output; a step's error is returned by `?`
    exactly as produced. -/
def chainExecuteAllGo (cancelled : Bool) :
    List (Json → Except PipelineErr PayloadOutput) → Json →
    Except PipelineErr (List PayloadOutput)
  | [], _ => .ok []
  | p :: rest, current =>
    if cancelled then .error .cancelled
    else
      match p current with
      | .error e => .error e
      | .ok out =>
        match chainExecuteAllGo cancelled rest out.value with
        | .error e => .error e
        | .ok outs => .ok (out :: outs)

/-- `Chain::execute_all`: empty chains are a configuration error. -/
def chainExecuteAll (cancelled : Bool)
    (payloads : List (Json → Except PipelineErr PayloadOutput)) (input : Json) :
    Except PipelineErr (List PayloadOutput) :=
  if payloads.isEmpty then .error (.invalidConfig "Chain has no payloads".data)
  else chainExecuteAllGo cancelled payloads input

/-- `Chain::execute`: only the final output. -/
def chainExecute (cancelled : Bool)
    (payloads : List (Json → Except PipelineErr PayloadOutput)) (input : Json) :
    Except PipelineErr PayloadOutput :=
  match chainExecuteAll cancelled payloads input with
  | .error e => .error e
  | .ok outs =>
    match outs.getLast? with
    | some o => .ok o
    | none => .error (.other "Chain produced no outputs".data)

/-- The step wrapping of the legacy `Pipeline` (`pipeline.rs` line 149):
    a step's error is wrapped into `StageFailed` with the step name.
    `Chain` (above) does not do this. -/
def pipelineWrapStepError (stageName : List Char) (msg : List Char)
    (r : Except PipelineErr PayloadOutput) : Except PipelineErr PayloadOutput :=
  match r with
  | .error _ => .error (.stageFailed stageName msg)
  | .ok out => .ok out

/-- A payload that always fails with a plain error. -/
def boomPayload : Json → Except PipelineErr PayloadOutput :=
  fun _ => .error (.other "boom".data)

/-! ## `backend/backoff.rs` and `backend/mod.rs` -/

inductive JitterStrategy where
  | none : JitterStrategy
  | full : JitterStrategy
  | equal : JitterStrategy
  | decorrelated : JitterStrategy

/-- `BackoffConfig` (delays in seconds as `Rat`, modelling
    `Duration::as_secs_f64` and the `f64` multiplier). -/
structure BackoffConfig where
  max_retries : Nat
  initial_delay : Rat
  multiplier : Rat
  max_delay : Rat
  jitter : JitterStrategy
  retryable_statuses : List Nat
  respect_retry_after : Bool

/-- The capped pre-jitter delay of `delay_for_attempt`
    (`base = initial * multiplier^attempt`, `capped = min base max`). -/
def delayBase (cfg : BackoffConfig) (attempt : Nat) : Rat :=
  min (cfg.initial_delay * cfg.multiplier ^ attempt) cfg.max_delay

/-- `BackoffConfig::delay_for_attempt`: jitter applied to the capped base;
    the random draw `fastrand::f64()` is a parameter `rand ∈ [0,1)`. -/
def delay_for_attempt (cfg : BackoffConfig) (attempt : Nat) (rand : Rat) : Rat :=
  match cfg.jitter with
  | .none => delayBase cfg attempt
  | .full => rand * delayBase cfg attempt
  | .equal => delayBase cfg attempt / 2 + rand * (delayBase cfg attempt / 2)
  | .decorrelated => rand * delayBase cfg attempt

/-- The delay selection of `with_backoff` for `attempt > 0` (lines
    195-207 of `backend/mod.rs`): an honored `Retry-After` wins, else
    `delay_for_attempt(attempt - 1)`. -/
def backoffDelay (cfg : BackoffConfig) (attempt : Nat)
    (lastError : Option PipelineErr) (rand : Rat) : Rat :=
  match lastError with
  | some (.httpError _ _ (some ra)) =>
    if cfg.respect_retry_after then (ra : Rat)
    else delay_for_attempt cfg (attempt - 1) rand
  | _ => delay_for_attempt cfg (attempt - 1) rand

/-- Whether the previous error carries a `Retry-After` that the policy
    honors. -/
def honoredRetryAfter (cfg : BackoffConfig) (lastError : Option PipelineErr) : Bool :=
  match lastError with
  | some (.httpError _ _ (some _)) => cfg.respect_retry_after
  | _ => false

/-- `is_retryable` (`backend/mod.rs`). -/
def is_retryable (e : PipelineErr) (cfg : BackoffConfig) : Bool :=
  match e with
  | .httpError status _ _ => cfg.retryable_statuses.contains status
  | .request _ => true
  | _ => false

/-- A config with a multiplier below one: delays shrink. -/
def cfgHalving : BackoffConfig :=
  ⟨3, 2, 1 / 2, 60, .none, [], false⟩

/-! ## `llm_call.rs` / `prompt.rs`: prompt rendering -/

/-- Loop of Rust `str::replace` (all non-overlapping occurrences, left to
    right, no rescanning of the replacement).  An empty pattern is the
    identity here (the crate only substitutes non-empty placeholders). -/
def replaceAllGo : Nat → List Char → List Char → List Char → List Char
  | 0, s, _, _ => s
  | fuel + 1, s, pat, rep =>
    if pat = [] then s
    else if pat.isPrefixOf s then rep ++ replaceAllGo fuel (s.drop pat.length) pat rep
    else
      match s with
      | [] => []
      | c :: tl => c :: replaceAllGo fuel tl pat rep

/-- Rust `str::replace`. -/
def replaceAll (s pat rep : List Char) : List Char :=
  replaceAllGo (s.length + 1) s pat rep

/-- `LlmCall::render_prompt`: plain replacement of `{input}` then of each
    context variable, in iteration order (a `HashMap` in the source; its
    iteration order is modelled by the list order).  No brace escaping. -/
def render_prompt (template input : List Char) (vars : List (List Char × List Char)) :
    List Char :=
  vars.foldl
    (fun acc kv => replaceAll acc (lbrace :: kv.1 ++ [rbrace]) kv.2)
    (replaceAll template "{input}".data input)

/-- `LlmCall::render_system`: context variables only. -/
def render_system (template : List Char) (vars : List (List Char × List Char)) :
    List Char :=
  vars.foldl (fun acc kv => replaceAll acc (lbrace :: kv.1 ++ [rbrace]) kv.2) template

/-- The escape sentinel of `prompt.rs` (`\x00LBRACE\x00`). -/
def ESCAPE_SENTINEL : List Char := Char.ofNat 0 :: "LBRACE".data ++ [Char.ofNat 0]

/-- The closing-brace sentinel (`\x00RBRACE\x00`). -/
def ESCAPE_SENTINEL_CLOSE : List Char := Char.ofNat 0 :: "RBRACE".data ++ [Char.ofNat 0]

/-- `prompt::render` (the legacy pipeline's renderer): three passes —
    protect `{{`/`}}`, substitute `{input}` and the context variables,
    restore the sentinels to literal braces. -/
def render (template input : List Char) (ctxData : List (List Char × List Char)) :
    List Char :=
  let r1 := replaceAll template [lbrace, lbrace] ESCAPE_SENTINEL
  let r2 := replaceAll r1 [rbrace, rbrace] ESCAPE_SENTINEL_CLOSE
  let r3 := replaceAll r2 "{input}".data input
  let r4 := ctxData.foldl
    (fun acc kv => replaceAll acc (lbrace :: kv.1 ++ [rbrace]) kv.2) r3
  let r5 := replaceAll r4 ESCAPE_SENTINEL [lbrace]
  replaceAll r5 ESCAPE_SENTINEL_CLOSE [rbrace]

/-! ## `retry.rs` and `llm_call.rs`: semantic retry

A single invocation is modelled against a script of backend results: the
initial call's result and one result per semantic retry attempt, each a
triple of response text, transport-retry count and accumulated backoff
milliseconds as produced by `call_backend`.  The correction chat history
only influences the model's replies, which the script abstracts, and the
temperature cool-down only alters the request, so neither appears in the
state. -/

/-- `RetryConfig` (the validator returns `none` for `Ok(())` and the
    reason for `Err(reason)`). -/
structure RetryCfg where
  max_retries : Nat
  validator : Option (List Char → Json → Option (List Char))
  cool_down : Bool

/-- `RetryConfig::new`: clamps the cap to at most 5. -/
def RetryCfg.new (maxRetries : Nat) : RetryCfg :=
  ⟨min maxRetries 5, none, true⟩

/-- `LlmCall::check_retry_needed`: a recorded parse error wins, then the
    semantic validator runs on `(raw, value)`. -/
def check_retry_needed (output : PayloadOutput) (rc : RetryCfg) : Option (List Char) :=
  match (match output.diagnostics with
         | some d => d.parse_error
         | none => none) with
  | some err => some err
  | none =>
    match rc.validator with
    | some v => v output.raw_response output.value
    | none => none

/-- The result of one backend call as collected by `call_backend`:
    `(response.text, transport_retries, backoff_total_ms)`. -/
structure AttemptResult where
  text : List Char
  transport_retries : Nat
  backoff_total_ms : Nat

/-- The initial call's diagnostics update (`diag.transport_retries = ...;
    diag.backoff_total_ms = ...`). -/
def setTransportDiag (tr bt : Nat) (d : ParseDiagnostics) : ParseDiagnostics :=
  { d with transport_retries := tr, backoff_total_ms := bt }

def applyTransportDiag (out : PayloadOutput) (tr bt : Nat) : PayloadOutput :=
  { out with diagnostics := Option.map (setTransportDiag tr bt) out.diagnostics }

/-- The retry-success diagnostics update (`diag.retry_attempts = attempt;
    diag.transport_retries = tr; diag.backoff_total_ms = bt`): the new
    attempt's counters replace the previous output's entirely. -/
def setRetryDiag (attempt tr bt : Nat) (d : ParseDiagnostics) : ParseDiagnostics :=
  { d with retry_attempts := attempt, transport_retries := tr, backoff_total_ms := bt }

def applyRetryDiag (out : PayloadOutput) (attempt tr bt : Nat) : PayloadOutput :=
  { out with diagnostics := Option.map (setRetryDiag attempt tr bt) out.diagnostics }

/-- The retry loop of `LlmCall::invoke` (`for attempt in
    1..=retry_config.max_retries`), consuming one scripted backend result
    per attempt.  On a successful call the output is replaced by the new
    attempt's `build_output` with that attempt's counters; the loop stops
    when the retry predicate clears or the budget is exhausted (returning
    the best-effort last output).  A `build_output` panic (reversed think
    tags) propagates out of the loop, modelled as `none`. -/
def retryLoop (strategy : OutputStrategy) (model : List Char) (rc : RetryCfg)
    (cancelled : Bool) :
    List (Except PipelineErr AttemptResult) → Nat → PayloadOutput →
    Option (Except PipelineErr PayloadOutput)
  | script, attempt, output =>
    if rc.max_retries < attempt then some (.ok output)
    else if cancelled then some (.error .cancelled)
    else
      match script with
      | [] => some (.ok output)
      | r :: rest =>
        match r with
        | .error e => some (.error e)
        | .ok res =>
          match build_output strategy model res.text with
          | none => none
          | some built =>
            let newOut := applyRetryDiag built
              attempt res.transport_retries res.backoff_total_ms
            match check_retry_needed newOut rc with
            | none => some (.ok newOut)
            | some _ =>
              if attempt = rc.max_retries then some (.ok newOut)
              else retryLoop strategy model rc cancelled rest (attempt + 1) newOut

/-- `LlmCall::invoke` against a script of backend results: cancellation
    check, initial call, output construction with transport counters, then
    the semantic retry loop when a retry config is present and the retry
    predicate fires.  A `build_output` panic propagates, modelled as
    `none`. -/
def invokeModel (strategy : OutputStrategy) (model : List Char)
    (retry : Option RetryCfg) (cancelled : Bool)
    (initial : Except PipelineErr AttemptResult)
    (script : List (Except PipelineErr AttemptResult)) :
    Option (Except PipelineErr PayloadOutput) :=
  if cancelled then some (.error .cancelled)
  else
    match initial with
    | .error e => some (.error e)
    | .ok res =>
      match build_output strategy model res.text with
      | none => none
      | some built =>
        let output := applyTransportDiag built
          res.transport_retries res.backoff_total_ms
        match retry with
        | none => some (.ok output)
        | some rc =>
          match check_retry_needed output rc with
          | none => some (.ok output)
          | some _ => retryLoop strategy model rc cancelled script 1 output

/-! ## Theorems: chain error propagation (C3) -/

/-- C3 counterexample: a chain step failing with a plain error is returned
    to the caller exactly as produced — `execute_all` performs no
    `stage_failed` wrapping (that wrapping exists only in the legacy
    `Pipeline`). -/
theorem chain_error_not_stage_failed :
    chainExecuteAll false [boomPayload] Json.null = .error (.other "boom".data) ∧
    (PipelineErr.other "boom".data).isStageFailed = false := by
  exact ⟨rfl, rfl⟩

theorem chainGo_propagates (c : Bool) :
    ∀ (ps : List (Json → Except PipelineErr PayloadOutput)) (input : Json)
      (e : PipelineErr),
      (∀ q ∈ ps, ∀ v e', q v = .error e' → e'.isStageFailed = false) →
      chainExecuteAllGo c ps input = .error e → e.isStageFailed = false := by
  intro ps
  induction ps with
  | nil =>
    intro input e _ hrun
    unfold chainExecuteAllGo at hrun
    cases hrun
  | cons p rest ih =>
    intro input e hsteps hrun
    unfold chainExecuteAllGo at hrun
    by_cases hc : c = true
    · rw [if_pos hc] at hrun
      cases hrun
      rfl
    · rw [if_neg hc] at hrun
      cases hp : p input with
      | error e' =>
        simp only [hp] at hrun
        cases hrun
        exact hsteps p (List.mem_cons_self p rest) input e hp
      | ok out =>
        simp only [hp] at hrun
        cases hrest : chainExecuteAllGo c rest out.value with
        | error e2 =>
          simp only [hrest] at hrun
          cases hrun
          exact ih out.value e
            (fun q hq => hsteps q (List.mem_cons_of_mem p hq)) hrest
        | ok outs =>
          simp only [hrest] at hrun
          cases hrun

/-- C3 (amended): `Chain::execute_all` propagates a step's error to the
    caller unchanged — if no step produces a `stage_failed` error, the
    chain never returns one (its own errors are `invalid_config` for an
    empty chain and `cancelled`); the step-name `stage_failed` wrapping
    exists only in the legacy `Pipeline` execution. -/
theorem chain_propagates_step_error_unwrapped
    (c : Bool) (ps : List (Json → Except PipelineErr PayloadOutput)) (input : Json)
    (e : PipelineErr)
    (hsteps : ∀ q ∈ ps, ∀ v e', q v = .error e' → e'.isStageFailed = false)
    (hrun : chainExecuteAll c ps input = .error e) :
    e.isStageFailed = false := by
  unfold chainExecuteAll at hrun
  by_cases hps : ps.isEmpty = true
  · rw [if_pos hps] at hrun
    cases hrun
    rfl
  · rw [if_neg hps] at hrun
    exact chainGo_propagates c ps input e hsteps hrun

/-- Witness for `chain_propagates_step_error_unwrapped` at the concrete
    one-step failing chain. -/
theorem chain_propagates_step_error_unwrapped_witness :
    (PipelineErr.other "boom".data).isStageFailed = false := by
  apply chain_propagates_step_error_unwrapped false [boomPayload] Json.null
    (.other "boom".data)
  · intro q hq v e' h
    rw [List.mem_singleton] at hq
    subst hq
    unfold boomPayload at h
    cases h
    rfl
  · rfl

/-! ## Theorems: transport backoff (C7) -/

/-- C7 counterexample: with a multiplier below one (the config fields are
    public and unconstrained), successive pre-jitter delays strictly
    decrease and never reach `max_delay`, refuting the claimed
    monotonicity. -/
theorem backoff_delay_decreases_for_small_multiplier :
    backoffDelay cfgHalving 1 none 0 = 2 ∧ backoffDelay cfgHalving 2 none 0 = 1 ∧
    backoffDelay cfgHalving 2 none 0 < backoffDelay cfgHalving 1 none 0 := by
  refine ⟨?_, ?_, ?_⟩ <;>
    norm_num [backoffDelay, delay_for_attempt, delayBase, cfgHalving]

/-- C7 (amended): for every attempt > 0 with no honored `Retry-After`, the
    pre-jitter delay of the backoff controller equals
    `min(initial_delay * multiplier^(attempt-1), max_delay)`; and provided
    the multiplier is at least 1 (the initial delay, a `Duration`, is
    non-negative by type), the capped delays are non-decreasing and stay
    at `max_delay` once they reach it.  Without the multiplier bound the
    monotonicity fails (see the counterexample). -/
theorem backoff_delay_formula_and_monotonicity :
    (∀ (cfg : BackoffConfig) (attempt : Nat) (le : Option PipelineErr) (rand : Rat),
      0 < attempt → honoredRetryAfter cfg le = false → cfg.jitter = .none →
      backoffDelay cfg attempt le rand
        = min (cfg.initial_delay * cfg.multiplier ^ (attempt - 1)) cfg.max_delay) ∧
    (∀ cfg : BackoffConfig, 0 ≤ cfg.initial_delay → 1 ≤ cfg.multiplier →
      ∀ a : Nat, delayBase cfg a ≤ delayBase cfg (a + 1) ∧
        (delayBase cfg a = cfg.max_delay → delayBase cfg (a + 1) = cfg.max_delay)) := by
  constructor
  · intro cfg attempt le rand hpos hhon hjit
    have hred : backoffDelay cfg attempt le rand
        = delay_for_attempt cfg (attempt - 1) rand := by
      cases le with
      | none => rfl
      | some e =>
        cases e with
        | httpError s b ra =>
          cases ra with
          | none => rfl
          | some r =>
            have hresp : cfg.respect_retry_after = false := by
              simpa [honoredRetryAfter] using hhon
            simp [backoffDelay, hresp]
        | request m => rfl
        | json m => rfl
        | stageFailed a b => rfl
        | cancelled => rfl
        | invalidConfig m => rfl
        | other m => rfl
    rw [hred]
    simp [delay_for_attempt, hjit, delayBase]
  · intro cfg hinit hmul a
    have hpow : cfg.multiplier ^ a ≤ cfg.multiplier ^ (a + 1) :=
      pow_le_pow_right₀ hmul (Nat.le_succ a)
    have hbase : cfg.initial_delay * cfg.multiplier ^ a
        ≤ cfg.initial_delay * cfg.multiplier ^ (a + 1) :=
      mul_le_mul_of_nonneg_left hpow hinit
    constructor
    · exact min_le_min hbase le_rfl
    · intro hmax
      have hge : cfg.max_delay ≤ cfg.initial_delay * cfg.multiplier ^ a := by
        by_contra hlt
        push_neg at hlt
        have : delayBase cfg a = cfg.initial_delay * cfg.multiplier ^ a :=
          min_eq_left hlt.le
        rw [this] at hmax
        exact absurd hmax.symm.le (not_le.mpr (hmax ▸ hlt))
      have : cfg.max_delay ≤ cfg.initial_delay * cfg.multiplier ^ (a + 1) :=
        hge.trans hbase
      exact min_eq_right this

/-- Witness for `backoff_delay_formula_and_monotonicity` at the standard
    config with jitter disabled. -/
theorem backoff_delay_formula_and_monotonicity_witness :
    backoffDelay ⟨3, 1, 2, 60, .none, [429, 500, 502, 503, 504], true⟩ 1 none 0
      = min ((1 : Rat) * 2 ^ 0) 60 ∧
    delayBase ⟨3, 1, 2, 60, .none, [429, 500, 502, 503, 504], true⟩ 0
      ≤ delayBase ⟨3, 1, 2, 60, .none, [429, 500, 502, 503, 504], true⟩ 1 := by
  constructor
  · exact backoff_delay_formula_and_monotonicity.1 _ 1 none 0 (by norm_num) rfl rfl
  · exact (backoff_delay_formula_and_monotonicity.2 _ (by norm_num) (by norm_num) 0).1

/-! ## Theorems: semantic retry diagnostics (C8) -/

/-- C8 counterexample: with an initial call that needed 2 transport retries
    and 100 ms of backoff (and whose text fails the json strategy) and a
    successful first semantic retry with 0 transport retries and 0 ms, the
    final diagnostics read `(transport_retries, backoff_total_ms,
    retry_attempts) = (0, 0, 1)` — the initial call's 2 retries and 100 ms
    were discarded, not accumulated. -/
theorem semantic_retry_overwrites_transport_counters :
    ((invokeModel .json "m".data (some ⟨1, none, true⟩) false
        (.ok ⟨"not json".data, 2, 100⟩)
        [.ok ⟨"\x7b\"a\": 1\x7d".data, 0, 0⟩]).bind
      (fun r => r.toOption)).bind
      (fun o => o.diagnostics.map
        (fun d => (d.transport_retries, d.backoff_total_ms, d.retry_attempts)))
      = some (0, 0, 1) ∧
    ((0 : Nat) ≠ 2 + 0 ∧ (0 : Nat) ≠ 100 + 0) := by
  constructor
  · decide
  · decide

/-- C8 (amended): each time the semantic retry loop replaces the current
    output with a new attempt's output (the attempt's `build_output`
    having produced one), the new output's diagnostics carry exactly that
    attempt's transport-retry count and backoff milliseconds (previous
    attempts' counters are discarded, not accumulated), and the semantic
    retry counter is set to the attempt number. -/
theorem semantic_retry_sets_attempt_counters (strategy : OutputStrategy)
    (model : List Char) (attempt : Nat) (res : AttemptResult) :
    ((build_output strategy model res.text).map
        (fun out => applyRetryDiag out attempt
          res.transport_retries res.backoff_total_ms)).bind
      (fun out => out.diagnostics.map
        (fun d => (d.retry_attempts, d.transport_retries, d.backoff_total_ms)))
      = (build_output strategy model res.text).map
        (fun _ => (attempt, res.transport_retries, res.backoff_total_ms)) := by
  cases hext : extract_thinking res.text with
  | none => simp [build_output, hext]
  | some tc =>
    obtain ⟨th, cl⟩ := tc
    simp [build_output, hext, applyRetryDiag, setRetryDiag]

/-! ## Theorems: prompt rendering (C9) -/

theorem replaceAllGo_not_contains {pat : List Char} (rep : List Char) :
    ∀ fuel s, findSub s pat = none → replaceAllGo fuel s pat rep = s := by
  intro fuel
  induction fuel with
  | zero => intro s _; rfl
  | succ fuel ih =>
    intro s hs
    unfold replaceAllGo
    by_cases hp : pat = []
    · rw [if_pos hp]
    · rw [if_neg hp]
      have hnotpre : pat.isPrefixOf s = false := by
        cases hpre : pat.isPrefixOf s
        · rfl
        · exact absurd (occurs_findSub_isSome (j := 0) (by simpa [OccursAt] using hpre))
            (by simp [hs])
      rw [hnotpre]
      simp only [Bool.false_eq_true, if_false]
      cases s with
      | nil => rfl
      | cons c tl =>
        have htl : findSub tl pat = none := by
          rw [findSub_cons, hnotpre] at hs
          simpa using hs
        simp [ih tl htl]

theorem replaceAll_not_contains {s pat : List Char} (rep : List Char)
    (h : containsSub s pat = false) : replaceAll s pat rep = s := by
  apply replaceAllGo_not_contains
  cases hf : findSub s pat
  · rfl
  · rw [containsSub, hf] at h; cases h

/-- C9 counterexample: the LLM-call's prompt rendering does not treat
    doubled braces: `render_prompt` leaves `{{}}` unchanged instead of
    producing `{}`. -/
theorem render_prompt_keeps_doubled_braces :
    render_prompt [lbrace, lbrace, rbrace, rbrace] "x".data []
      = [lbrace, lbrace, rbrace, rbrace] ∧
    [lbrace, lbrace, rbrace, rbrace] ≠ [lbrace, rbrace] := by
  constructor
  · decide
  · decide

/-- C9 (amended): the LLM-call's `render_prompt` substitutes `{input}` and
    then each context variable by plain replacement with no brace escaping
    — a template with no placeholders (in particular one made of doubled
    braces) is returned unchanged; the separate `prompt::render` (the
    legacy pipeline's renderer) performs the three-pass
    protect/substitute/restore so doubled braces produce literal braces
    there; and in both renderers a brace-delimited placeholder inside a
    substituted value is re-expanded by a later substitution (here `{a}`
    with value `{b}` ends up as `1`). -/
theorem prompt_rendering_three_pass_only_in_prompt_module :
    (∀ template input : List Char, containsSub template "{input}".data = false →
      render_prompt template input [] = template) ∧
    render "Hello \x7bname\x7d, JSON: \x7b\x7b\"key\": \"val\"\x7d\x7d".data
        "data".data [("name".data, "Alice".data)]
      = "Hello Alice, JSON: \x7b\"key\": \"val\"\x7d".data ∧
    render_prompt [lbrace, 'a', rbrace] "x".data
        [("a".data, [lbrace, 'b', rbrace]), ("b".data, "1".data)] = "1".data ∧
    render [lbrace, 'a', rbrace] "x".data
        [("a".data, [lbrace, 'b', rbrace]), ("b".data, "1".data)] = "1".data := by
  refine ⟨?_, by decide, by decide, by decide⟩
  intro template input h
  unfold render_prompt
  simp only [List.foldl_nil]
  exact replaceAll_not_contains input h

/-- Witness for `prompt_rendering_three_pass_only_in_prompt_module` at a
    concrete placeholder-free template. -/
theorem prompt_rendering_three_pass_witness :
    render_prompt "no placeholders here".data "x".data [] = "no placeholders here".data :=
  prompt_rendering_three_pass_only_in_prompt_module.1
    "no placeholders here".data "x".data (by decide)

end LlmPipeline
